import Mathlib

/-!
Shallow embedding of the geometric core of `src/clearance_creepage.py`
(KiCAD_Custom_DRC).  Coordinates are the integer internal units of pcbnew
(`VECTOR2I`, 10^6 units per millimetre); fractional quantities produced by
the Python code (projection parameters, distances) are modelled exactly as
rationals.  Python's `math.sqrt` is modelled by the monotone integer floor
square root `msqrt`; every comparison the source performs on distances is an
order comparison, which `msqrt` decides exactly against integer thresholds,
and every concrete evaluation below is performed at inputs where the needed
square roots are exact.  Python's `float('inf')` is modelled by `⊤` of
`WithTop ℚ` (addition absorbs into `⊤` and every rational is `< ⊤`, matching
IEEE infinity in the comparisons the source performs).
-/

/-- pcbnew.VECTOR2I: a 2-D point in integer board units. -/
structure Vec2 where
  x : Int
  y : Int
deriving DecidableEq, Repr, Inhabited

/-- pcbnew.FromMM: millimetres to internal units (1 mm = 10^6 units). -/
def fromMM (v : ℚ) : ℚ := v * 1000000

/-- pcbnew.ToMM: internal units to millimetres. -/
def toMM (v : ℚ) : ℚ := v / 1000000

/-- Binary search for the integer square root: maintains `lo² ≤ n < hi²`
and halves the interval each step.  Structural recursion on the fuel so
that concrete evaluations reduce in the kernel. -/
def sqrtLoop : ℕ → ℕ → ℕ → ℕ → ℕ
  | 0, _, lo, _ => lo
  | fuel + 1, n, lo, hi =>
    if hi ≤ lo + 1 then lo
    else
      let mid := (lo + hi) / 2
      if mid * mid ≤ n then sqrtLoop fuel n mid hi else sqrtLoop fuel n lo mid

/-- The integer floor square root, by binary search; 128 fuel steps cover
every input below `2^128`, far beyond any board coordinate arithmetic. -/
def msqrtNat (n : ℕ) : ℕ := sqrtLoop 128 n 0 (n + 1)

/-- Model of Python `math.sqrt` on the nonnegative quantities the checker
feeds it: the integer floor square root.  It is monotone, zero on zero, and
exact on perfect squares; all uses in the source are order comparisons
between such square roots and integer quantities, which the floor square
root decides exactly. -/
def msqrt (q : ℚ) : ℚ := (msqrtNat q.floor.toNat : ℚ)

/-- Invariant of the binary-search square root: with enough fuel for the
interval width it lands on the floor square root. -/
theorem sqrtLoop_spec (fuel n lo hi : ℕ) (h1 : lo * lo ≤ n) (h2 : n < hi * hi)
    (hw : hi ≤ lo + 2 ^ fuel) :
    sqrtLoop fuel n lo hi * sqrtLoop fuel n lo hi ≤ n ∧
      n < (sqrtLoop fuel n lo hi + 1) * (sqrtLoop fuel n lo hi + 1) := by
  induction fuel generalizing lo hi with
  | zero =>
    simp only [sqrtLoop]
    refine ⟨h1, lt_of_lt_of_le h2 ?_⟩
    have : hi ≤ lo + 1 := by simpa using hw
    exact Nat.mul_le_mul this this
  | succ fuel ih =>
    simp only [sqrtLoop]
    by_cases hle : hi ≤ lo + 1
    · simp only [if_pos hle]
      exact ⟨h1, lt_of_lt_of_le h2 (Nat.mul_le_mul hle hle)⟩
    · simp only [if_neg hle]
      have hk : (2 : ℕ) ^ (fuel + 1) = 2 ^ fuel + 2 ^ fuel := by ring
      rw [hk] at hw
      by_cases hm : (lo + hi) / 2 * ((lo + hi) / 2) ≤ n
      · simp only [if_pos hm]
        exact ih _ _ hm h2 (by omega)
      · simp only [if_neg hm]
        exact ih _ _ h1 (Nat.lt_of_not_le hm) (by omega)

/-- `msqrtNat` really is the floor square root for every input under
`2^128` (sanity check of the `math.sqrt` model). -/
theorem msqrtNat_correct (n : ℕ) (h : n < 2 ^ 128) :
    msqrtNat n * msqrtNat n ≤ n ∧ n < (msqrtNat n + 1) * (msqrtNat n + 1) := by
  refine sqrtLoop_spec 128 n 0 (n + 1) (by simp) (by nlinarith) ?_
  simpa using Nat.succ_le_of_lt h

/-- emc_auditor_plugin.EMCAuditorPlugin.get_distance (injected into the
checker as `self.get_distance`): Euclidean distance
`math.sqrt((p1.x - p2.x)**2 + (p1.y - p2.y)**2)`. -/
def get_distance (p1 p2 : Vec2) : ℚ :=
  msqrt (((p1.x - p2.x) ^ 2 + (p1.y - p2.y) ^ 2 : ℤ) : ℚ)

/-- One outline of a SHAPE_POLY_SET: the ordered vertex list, edges wrapping
from the last point back to the first. -/
abbrev Outline := List Vec2

/-- pcbnew.SHAPE_POLY_SET: a list of outlines.  `OutlineCount()` is the list
length and `Outline(0)` is the head. -/
abbrev PolySet := List Outline

/-- ClearanceCreepageChecker._point_to_segment_distance: distance from
`point` to the segment `seg_start`–`seg_end`, clamping the projection
parameter `t` to `[0, 1]`; a degenerate segment falls back to the
point-to-point distance. -/
def _point_to_segment_distance (point seg_start seg_end : Vec2) : ℚ :=
  let dx : ℚ := ((seg_end.x - seg_start.x : ℤ) : ℚ)
  let dy : ℚ := ((seg_end.y - seg_start.y : ℤ) : ℚ)
  let segment_length_sq := dx * dx + dy * dy
  if segment_length_sq = 0 then
    get_distance point seg_start
  else
    let t := (((point.x - seg_start.x : ℤ) : ℚ) * dx +
              ((point.y - seg_start.y : ℤ) : ℚ) * dy) / segment_length_sq
    let t := max 0 (min 1 t)
    let closest_x := ((seg_start.x : ℚ)) + t * dx
    let closest_y := ((seg_start.y : ℚ)) + t * dy
    let dist_x := ((point.x : ℚ)) - closest_x
    let dist_y := ((point.y : ℚ)) - closest_y
    msqrt (dist_x * dist_x + dist_y * dist_y)

/-- The early-exit threshold of `_calculate_polygon_distance`:
`pcbnew.FromMM(0.01)` = 10^4 internal units. -/
def early_exit_threshold : ℚ := fromMM (1 / 100)

/-- The vertex/edge pairs scanned by one direction of
`_calculate_polygon_distance`: every vertex of `va` against every wrapped
edge of `vb`, in loop order. -/
def vertexEdgePairs (va vb : Outline) : List (Vec2 × Vec2 × Vec2) :=
  va.flatMap fun p =>
    (List.range vb.length).map fun j =>
      (p, vb.getD j default, vb.getD ((j + 1) % vb.length) default)

/-- The running-minimum loop of `_calculate_polygon_distance`: each distance
updates the minimum when strictly smaller, and an update below the early-exit
threshold returns immediately. -/
def polyDistScan (thr : ℚ) : List (Vec2 × Vec2 × Vec2) → WithTop ℚ → WithTop ℚ
  | [], m => m
  | (p, s, e) :: rest, m =>
    let d : WithTop ℚ := ((_point_to_segment_distance p s e : ℚ) : WithTop ℚ)
    if d < m then
      (if d < ((thr : ℚ) : WithTop ℚ) then d else polyDistScan thr rest d)
    else polyDistScan thr rest m

/-- ClearanceCreepageChecker._calculate_polygon_distance: minimum over the
two-sided vertex-to-edge scan of outline 0 of each polygon set, `⊤`
(`float('inf')`) when either set has no outline, with the 0.01 mm early
exit. -/
def _calculate_polygon_distance (poly_a poly_b : PolySet) : WithTop ℚ :=
  match poly_a.head?, poly_b.head? with
  | some outline_a, some outline_b =>
    polyDistScan early_exit_threshold
      (vertexEdgePairs outline_a outline_b ++ vertexEdgePairs outline_b outline_a) ⊤
  | _, _ => ⊤

/-- The doubled signed area of the triangle `a b c`: positive when `c` lies
strictly to the left of the directed line `a → b`.  Used to state claims
about `_segments_intersect`. -/
def orientVal (a b c : Vec2) : ℤ :=
  (b.x - a.x) * (c.y - a.y) - (b.y - a.y) * (c.x - a.x)

/-- The inner `ccw` helper of `_segments_intersect`:
`(c.y - a.y) * (b.x - a.x) > (b.y - a.y) * (c.x - a.x)`. -/
def ccw (a b c : Vec2) : Bool :=
  (c.y - a.y) * (b.x - a.x) > (b.y - a.y) * (c.x - a.x)

/-- ClearanceCreepageChecker._segments_intersect: the four-orientation
strict CCW test. -/
def _segments_intersect (p1 p2 p3 p4 : Vec2) : Bool :=
  (ccw p1 p3 p4 != ccw p2 p3 p4) && (ccw p1 p2 p3 != ccw p1 p2 p4)

/-- Modelled from the spec (§4.1 `polygonContains`, standing in for the
external pcbnew SHAPE_POLY_SET geometry): the standard even-odd ray-crossing
point-in-polygon test, used only to state that a point lies inside a
polygon in counterexamples. -/
def polygonContains (outline : Outline) (p : Vec2) : Bool :=
  let n := outline.length
  let hits := (List.range n).filter fun i =>
    let a := outline.getD i default
    let b := outline.getD ((i + 1) % n) default
    ((a.y ≤ p.y ∧ p.y < b.y) ∨ (b.y ≤ p.y ∧ p.y < a.y)) ∧
      ((p.x : ℚ)) < (a.x : ℚ) + ((b.x - a.x : ℤ) : ℚ) * ((p.y - a.y : ℤ) : ℚ) / ((b.y - a.y : ℤ) : ℚ)
  hits.length % 2 = 1

/-! ### Scan lemmas for `_calculate_polygon_distance` -/

/-- The running-minimum scan never exceeds its starting minimum. -/
theorem polyDistScan_le (thr : ℚ) (l : List (Vec2 × Vec2 × Vec2)) (m : WithTop ℚ) :
    polyDistScan thr l m ≤ m := by
  induction l generalizing m with
  | nil => exact le_refl m
  | cons hd rest ih =>
    obtain ⟨p, s, e⟩ := hd
    simp only [polyDistScan]
    split_ifs with h1 h2
    · exact le_of_lt h1
    · exact le_trans (ih _) (le_of_lt h1)
    · exact ih m

/-- If some scanned vertex/edge pair is at distance zero, the scan result is
below the early-exit threshold (either an early exit fired below it, or the
zero survives into the final minimum). -/
theorem polyDistScan_lt_of_zero (thr : ℚ) (hthr : 0 < thr)
    (l : List (Vec2 × Vec2 × Vec2)) (m : WithTop ℚ)
    (h : ∃ pr ∈ l, _point_to_segment_distance pr.1 pr.2.1 pr.2.2 = 0) :
    polyDistScan thr l m < ((thr : ℚ) : WithTop ℚ) := by
  induction l generalizing m with
  | nil => simp at h
  | cons hd rest ih =>
    obtain ⟨p, s, e⟩ := hd
    obtain ⟨pr, hmem, hzero⟩ := h
    simp only [polyDistScan]
    rcases List.mem_cons.mp hmem with heq | hrest
    · subst heq
      simp only at hzero
      rw [hzero]
      by_cases h1 : ((0 : ℚ) : WithTop ℚ) < m
      · simp only [if_pos h1]
        have h2 : ((0 : ℚ) : WithTop ℚ) < ((thr : ℚ) : WithTop ℚ) :=
          WithTop.coe_lt_coe.mpr hthr
        simp only [if_pos h2]
        exact h2
      · simp only [if_neg h1]
        have hm : m ≤ ((0 : ℚ) : WithTop ℚ) := not_lt.mp h1
        exact lt_of_le_of_lt (le_trans (polyDistScan_le thr rest m) hm)
          (WithTop.coe_lt_coe.mpr hthr)
    · split_ifs with h1 h2
      · exact h2
      · exact ih _ ⟨pr, hrest, hzero⟩
      · exact ih _ ⟨pr, hrest, hzero⟩

/-! ### Claim C2 -/

/-- Outline of a 6 mm × 2 mm rectangle centred at the origin (internal
units). -/
def crossOutlineA : Outline :=
  [⟨-3000000, -1000000⟩, ⟨3000000, -1000000⟩, ⟨3000000, 1000000⟩, ⟨-3000000, 1000000⟩]

/-- Outline of a 2 mm × 6 mm rectangle centred at the origin (internal
units); together with `crossOutlineA` it forms an overlapping cross. -/
def crossOutlineB : Outline :=
  [⟨-1000000, -3000000⟩, ⟨1000000, -3000000⟩, ⟨1000000, 3000000⟩, ⟨-1000000, 3000000⟩]

/-- C2, counterexample: the two cross rectangles (4-point outlines) overlap —
the origin is interior to both — yet `_calculate_polygon_distance` returns
2 mm (2 000 000 internal units), not 0: no vertex of either rectangle is
near an edge of the other, so the two-sided vertex-to-edge scan never sees
the overlap. -/
theorem C2_counterexample :
    3 ≤ crossOutlineA.length ∧ 3 ≤ crossOutlineB.length ∧
    polygonContains crossOutlineA ⟨0, 0⟩ = true ∧
    polygonContains crossOutlineB ⟨0, 0⟩ = true ∧
    _calculate_polygon_distance [crossOutlineA] [crossOutlineB] =
      ((2000000 : ℚ) : WithTop ℚ) := by
  refine ⟨by decide, by decide, by with_unfolding_all decide,
    by with_unfolding_all decide, ?_⟩
  exact le_antisymm (by with_unfolding_all decide) (by with_unfolding_all decide)

/-- C2, amended: the two-sided vertex-to-edge scan of
`_calculate_polygon_distance` returns a value below the 0.01 mm early-exit
threshold whenever some vertex of one outline lies at distance zero from an
edge of the other (in particular whenever the outlines share a vertex);
mere interior overlap does not force a zero result. -/
theorem C2_theorem (poly_a poly_b : PolySet) (oa ob : Outline)
    (ha : poly_a.head? = some oa) (hb : poly_b.head? = some ob)
    (h : ∃ pr ∈ vertexEdgePairs oa ob ++ vertexEdgePairs ob oa,
      _point_to_segment_distance pr.1 pr.2.1 pr.2.2 = 0) :
    _calculate_polygon_distance poly_a poly_b <
      ((early_exit_threshold : ℚ) : WithTop ℚ) := by
  unfold _calculate_polygon_distance
  rw [ha, hb]
  exact polyDistScan_lt_of_zero _ (by norm_num [early_exit_threshold, fromMM]) _ _ h

/-- C2, witness: two triangles sharing the vertex `(0,0)`; the scan result is
below the early-exit threshold. -/
theorem C2_witness :
    _calculate_polygon_distance [[⟨0, 0⟩, ⟨10, 0⟩, ⟨0, 10⟩]]
        [[⟨0, 0⟩, ⟨-10, 0⟩, ⟨0, -10⟩]] <
      ((early_exit_threshold : ℚ) : WithTop ℚ) :=
  C2_theorem _ _ _ _ rfl rfl
    ⟨(⟨0, 0⟩, ⟨0, 0⟩, ⟨-10, 0⟩), by with_unfolding_all decide,
      by with_unfolding_all decide⟩

/-! ### Claim C7 -/

/-- Lemma: the source's `ccw` helper is the strict positivity of the
orientation value. -/
theorem ccw_iff (a b c : Vec2) : ccw a b c = true ↔ 0 < orientVal a b c := by
  simp only [ccw, orientVal, gt_iff_lt, decide_eq_true_eq]
  constructor <;> intro h <;> linarith

/-- C7, counterexample: the segments `(0,0)–(2,0)` and `(1,1)–(0,0)` merely
touch at the shared endpoint `(0,0)` — which lies on the first segment's
line, so the endpoints are not strictly on opposite sides — yet
`_segments_intersect` returns `true`. -/
theorem C7_counterexample :
    (⟨0, 0⟩ : Vec2) = (⟨0, 0⟩ : Vec2) ∧
    orientVal ⟨0, 0⟩ ⟨2, 0⟩ ⟨0, 0⟩ = 0 ∧
    _segments_intersect ⟨0, 0⟩ ⟨2, 0⟩ ⟨1, 1⟩ ⟨0, 0⟩ = true := by
  decide

/-- Lemma: `ccw` is `false` when the orientation value is nonpositive. -/
theorem ccw_eq_false (a b c : Vec2) (h : orientVal a b c ≤ 0) : ccw a b c = false := by
  cases hb : ccw a b c
  · rfl
  · exact absurd ((ccw_iff a b c).mp hb) (not_lt.mpr h)

/-- C7, amended: `_segments_intersect` returns `true` whenever each
segment's endpoints lie strictly on opposite sides of the other segment's
line, and returns `false` whenever the four points are collinear; touching
configurations (an endpoint exactly on the other segment) may return either
value. -/
theorem C7_theorem (p1 p2 p3 p4 : Vec2) :
    (orientVal p1 p3 p4 * orientVal p2 p3 p4 < 0 →
      orientVal p1 p2 p3 * orientVal p1 p2 p4 < 0 →
      _segments_intersect p1 p2 p3 p4 = true) ∧
    (orientVal p1 p2 p3 = 0 → orientVal p1 p2 p4 = 0 →
      _segments_intersect p1 p2 p3 p4 = false) := by
  constructor
  · intro h1 h2
    simp only [_segments_intersect, Bool.and_eq_true, bne_iff_ne, ne_eq]
    constructor
    · rcases mul_neg_iff.mp h1 with ⟨ha, hb⟩ | ⟨ha, hb⟩
      · rw [(ccw_iff p1 p3 p4).mpr ha, ccw_eq_false p2 p3 p4 (le_of_lt hb)]
        simp
      · rw [ccw_eq_false p1 p3 p4 (le_of_lt ha), (ccw_iff p2 p3 p4).mpr hb]
        simp
    · rcases mul_neg_iff.mp h2 with ⟨ha, hb⟩ | ⟨ha, hb⟩
      · rw [(ccw_iff p1 p2 p3).mpr ha, ccw_eq_false p1 p2 p4 (le_of_lt hb)]
        simp
      · rw [ccw_eq_false p1 p2 p3 (le_of_lt ha), (ccw_iff p1 p2 p4).mpr hb]
        simp
  · intro h3 h4
    simp [_segments_intersect, ccw_eq_false p1 p2 p3 (le_of_eq h3),
      ccw_eq_false p1 p2 p4 (le_of_eq h4)]

/-- C7, witness: a proper crossing returns `true`; a collinear pair returns
`false`. -/
theorem C7_witness :
    _segments_intersect ⟨0, 0⟩ ⟨2, 2⟩ ⟨0, 2⟩ ⟨2, 0⟩ = true ∧
    _segments_intersect ⟨0, 0⟩ ⟨4, 0⟩ ⟨1, 0⟩ ⟨2, 0⟩ = false :=
  ⟨(C7_theorem ⟨0, 0⟩ ⟨2, 2⟩ ⟨0, 2⟩ ⟨2, 0⟩).1 (by decide) (by decide),
    (C7_theorem ⟨0, 0⟩ ⟨4, 0⟩ ⟨1, 0⟩ ⟨2, 0⟩).2 (by decide) (by decide)⟩

/-! ### Claim C3: the standards interpolation table -/

/-- One insertion step of the voltage sort (Python
`all_voltages.sort(key=lambda x: x[0])`). -/
def insertByVoltage (p : ℚ × ℚ) : List (ℚ × ℚ) → List (ℚ × ℚ)
  | [] => [p]
  | q :: rest => if p.1 < q.1 then p :: q :: rest else q :: insertByVoltage p rest

/-- Insertion sort by voltage; on tables without duplicate voltages it
agrees with Python's stable sort. -/
def sortByVoltage : List (ℚ × ℚ) → List (ℚ × ℚ)
  | [] => []
  | p :: rest => insertByVoltage p (sortByVoltage rest)

/-- Python `all_voltages[0]`, with a default for the (guarded-away) empty
case. -/
def tblHead : List (ℚ × ℚ) → ℚ × ℚ
  | [] => (0, 0)
  | p :: _ => p

/-- Python `all_voltages[-1]`, with a default for the (guarded-away) empty
case. -/
def tblLast : List (ℚ × ℚ) → ℚ × ℚ
  | [] => (0, 0)
  | [p] => p
  | _ :: q :: rest => tblLast (q :: rest)

/-- The bracketing loop of `_interpolate_clearance_table`: the first pair of
consecutive entries whose voltages bracket the query is linearly
interpolated; `none` when no bracket matches (the code's trailing
fallback). -/
def interpLoop : List (ℚ × ℚ) → ℚ → Option ℚ
  | (vl, dl) :: (vh, dh) :: rest, v =>
    if vl ≤ v ∧ v ≤ vh then some (dl + (v - vl) / (vh - vl) * (dh - dl))
    else interpLoop ((vh, dh) :: rest) v
  | _, _ => none

/-- ClearanceCreepageChecker._interpolate_clearance_table: flattens the
configured table sections, sorts by voltage, returns the 0.13 mm fabrication
minimum for an empty table or a query `≤ 0`, clamps to the boundary entries,
and otherwise linearly interpolates between the bracketing entries. -/
def _interpolate_clearance_table (clearance_tables : List (List (ℚ × ℚ)))
    (voltage_rms : ℚ) : ℚ :=
  if clearance_tables.flatten = [] then 13 / 100
  else
    let all_voltages := sortByVoltage clearance_tables.flatten
    if voltage_rms ≤ 0 then 13 / 100
    else if voltage_rms ≤ (tblHead all_voltages).1 then (tblHead all_voltages).2
    else if voltage_rms ≥ (tblLast all_voltages).1 then (tblLast all_voltages).2
    else
      match interpLoop all_voltages voltage_rms with
      | some c => c
      | none => 13 / 100

/-- Well-formedness step relation of a table: strictly ascending voltages
and non-decreasing distances. -/
def tableStep (p q : ℚ × ℚ) : Prop := p.1 < q.1 ∧ p.2 ≤ q.2

/-- Unfolding lemma for `interpLoop` on two or more entries. -/
theorem interpLoop_cons_cons (a b : ℚ × ℚ) (rest : List (ℚ × ℚ)) (v : ℚ) :
    interpLoop (a :: b :: rest) v =
      if a.1 ≤ v ∧ v ≤ b.1 then some (a.2 + (v - a.1) / (b.1 - a.1) * (b.2 - a.2))
      else interpLoop (b :: rest) v := by
  obtain ⟨a1, a2⟩ := a
  obtain ⟨b1, b2⟩ := b
  rfl

/-- `tblLast` steps over the head of a list of two or more entries. -/
theorem tblLast_cons_cons (a b : ℚ × ℚ) (rest : List (ℚ × ℚ)) :
    tblLast (a :: b :: rest) = tblLast (b :: rest) := rfl

/-- Sorting a strictly voltage-ascending list is the identity. -/
theorem sortByVoltage_eq_self (l : List (ℚ × ℚ))
    (h : List.Chain' (fun p q : ℚ × ℚ => p.1 < q.1) l) : sortByVoltage l = l := by
  induction l with
  | nil => rfl
  | cons p rest ih =>
    simp only [sortByVoltage]
    rw [ih h.tail]
    cases rest with
    | nil => rfl
    | cons q r =>
      have hpq : p.1 < q.1 := (List.chain'_cons.mp h).1
      simp [insertByVoltage, hpq]

/-- In a well-formed table the head distance bounds the last distance. -/
theorem tableStep_head2_le_last2 (x : ℚ × ℚ) (xs : List (ℚ × ℚ))
    (h : List.Chain' tableStep (x :: xs)) :
    x.2 ≤ (tblLast (x :: xs)).2 := by
  induction xs generalizing x with
  | nil => simp [tblLast]
  | cons y ys ih =>
    have hxy : tableStep x y := (List.chain'_cons.mp h).1
    have h2 := ih y (List.chain'_cons.mp h).2
    rw [tblLast_cons_cons]
    exact le_trans hxy.2 h2

/-- In a well-formed table the head voltage bounds the last voltage. -/
theorem tableStep_head1_le_last1 (x : ℚ × ℚ) (xs : List (ℚ × ℚ))
    (h : List.Chain' tableStep (x :: xs)) :
    x.1 ≤ (tblLast (x :: xs)).1 := by
  induction xs generalizing x with
  | nil => simp [tblLast]
  | cons y ys ih =>
    have hxy : tableStep x y := (List.chain'_cons.mp h).1
    have h2 := ih y (List.chain'_cons.mp h).2
    rw [tblLast_cons_cons]
    exact le_trans (le_of_lt hxy.1) h2

/-- The linearly interpolated value of a bracket stays within the bracket's
distances. -/
theorem interpBracket_bounds (vl dl vh dh v : ℚ) (hlt : vl < vh) (hd : dl ≤ dh)
    (h1 : vl ≤ v) (h2 : v ≤ vh) :
    dl ≤ dl + (v - vl) / (vh - vl) * (dh - dl) ∧
      dl + (v - vl) / (vh - vl) * (dh - dl) ≤ dh := by
  have hD : (0 : ℚ) < vh - vl := by linarith
  constructor
  · have : 0 ≤ (v - vl) / (vh - vl) * (dh - dl) :=
      mul_nonneg (div_nonneg (by linarith) (le_of_lt hD)) (by linarith)
    linarith
  · have hr : (v - vl) / (vh - vl) ≤ 1 := by
      rw [div_le_one hD]; linarith
    have : (v - vl) / (vh - vl) * (dh - dl) ≤ 1 * (dh - dl) :=
      mul_le_mul_of_nonneg_right hr (by linarith)
    linarith

/-- On a well-formed table whose extreme voltages bracket the query, the
interpolation loop succeeds and its value lies between the head and last
distances. -/
theorem interpLoop_bounds (rest : List (ℚ × ℚ)) (a b : ℚ × ℚ) (v : ℚ)
    (hc : List.Chain' tableStep (a :: b :: rest))
    (h1 : a.1 ≤ v) (h2 : v ≤ (tblLast (b :: rest)).1) :
    ∃ c, interpLoop (a :: b :: rest) v = some c ∧
      a.2 ≤ c ∧ c ≤ (tblLast (b :: rest)).2 := by
  induction rest generalizing a b with
  | nil =>
    have hab : tableStep a b := (List.chain'_cons.mp hc).1
    have hlast : tblLast [b] = b := rfl
    rw [hlast] at h2 ⊢
    have hbr := interpBracket_bounds a.1 a.2 b.1 b.2 v hab.1 hab.2 h1 h2
    exact ⟨_, by rw [interpLoop_cons_cons, if_pos ⟨h1, h2⟩], hbr.1, hbr.2⟩
  | cons c rest' ih =>
    have hab : tableStep a b := (List.chain'_cons.mp hc).1
    by_cases hv : v ≤ b.1
    · have hbr := interpBracket_bounds a.1 a.2 b.1 b.2 v hab.1 hab.2 h1 hv
      have hb2 : b.2 ≤ (tblLast (b :: c :: rest')).2 :=
        tableStep_head2_le_last2 b (c :: rest') (List.chain'_cons.mp hc).2
      exact ⟨_, by rw [interpLoop_cons_cons, if_pos ⟨h1, hv⟩], hbr.1,
        le_trans hbr.2 hb2⟩
    · have hrec := ih b c (List.chain'_cons.mp hc).2 (by linarith)
        (by rw [tblLast_cons_cons] at h2; exact h2)
      obtain ⟨cval, hcval, hlb, hub⟩ := hrec
      refine ⟨cval, ?_, le_trans hab.2 hlb, by rw [tblLast_cons_cons]; exact hub⟩
      rw [interpLoop_cons_cons, if_neg (fun hh => hv hh.2)]
      exact hcval

/-- Monotonicity of a single interpolation bracket in the query voltage. -/
theorem interpBracket_mono (vl dl vh dh v1 v2 : ℚ) (hlt : vl < vh) (hd : dl ≤ dh)
    (h12 : v1 ≤ v2) :
    dl + (v1 - vl) / (vh - vl) * (dh - dl) ≤ dl + (v2 - vl) / (vh - vl) * (dh - dl) := by
  have hD : (0 : ℚ) < vh - vl := by linarith
  have h' : (v1 - vl) / (vh - vl) ≤ (v2 - vl) / (vh - vl) := by gcongr
  have := mul_le_mul_of_nonneg_right h' (show (0 : ℚ) ≤ dh - dl by linarith)
  linarith

/-- The interpolation loop is monotone in the query voltage on a well-formed
table bracketing both queries. -/
theorem interpLoop_mono (rest : List (ℚ × ℚ)) (a b : ℚ × ℚ) (v1 v2 : ℚ)
    (hc : List.Chain' tableStep (a :: b :: rest))
    (h1 : a.1 ≤ v1) (h12 : v1 ≤ v2) (h2 : v2 ≤ (tblLast (b :: rest)).1)
    (c1 c2 : ℚ)
    (e1 : interpLoop (a :: b :: rest) v1 = some c1)
    (e2 : interpLoop (a :: b :: rest) v2 = some c2) :
    c1 ≤ c2 := by
  induction rest generalizing a b with
  | nil =>
    have hab : tableStep a b := (List.chain'_cons.mp hc).1
    have hlast : tblLast [b] = b := rfl
    rw [hlast] at h2
    rw [interpLoop_cons_cons, if_pos ⟨h1, by linarith⟩] at e1
    rw [interpLoop_cons_cons, if_pos ⟨by linarith, h2⟩] at e2
    obtain rfl : _ = c1 := Option.some.inj e1
    obtain rfl : _ = c2 := Option.some.inj e2
    exact interpBracket_mono a.1 a.2 b.1 b.2 v1 v2 hab.1 hab.2 h12
  | cons c rest' ih =>
    have hab : tableStep a b := (List.chain'_cons.mp hc).1
    by_cases hv2 : v2 ≤ b.1
    · rw [interpLoop_cons_cons, if_pos ⟨h1, by linarith⟩] at e1
      rw [interpLoop_cons_cons, if_pos ⟨by linarith, hv2⟩] at e2
      obtain rfl : _ = c1 := Option.some.inj e1
      obtain rfl : _ = c2 := Option.some.inj e2
      exact interpBracket_mono a.1 a.2 b.1 b.2 v1 v2 hab.1 hab.2 h12
    · by_cases hv1 : v1 ≤ b.1
      · rw [interpLoop_cons_cons, if_pos ⟨h1, hv1⟩] at e1
        obtain rfl : _ = c1 := Option.some.inj e1
        rw [interpLoop_cons_cons, if_neg (fun hh => hv2 hh.2)] at e2
        have hrec := interpLoop_bounds rest' b c v2 (List.chain'_cons.mp hc).2
          (by linarith) (by rw [tblLast_cons_cons] at h2; exact h2)
        obtain ⟨cval, hcval, hlb, _⟩ := hrec
        obtain rfl : cval = c2 := Option.some.inj (hcval ▸ e2)
        have hup := (interpBracket_bounds a.1 a.2 b.1 b.2 v1 hab.1 hab.2 h1 hv1).2
        exact le_trans hup hlb
      · rw [interpLoop_cons_cons, if_neg (fun hh => hv1 hh.2)] at e1
        rw [interpLoop_cons_cons, if_neg (fun hh => hv2 hh.2)] at e2
        exact ih b c (List.chain'_cons.mp hc).2 (by linarith)
          (by rw [tblLast_cons_cons] at h2; exact h2) e1 e2

/-- Unfolding of `_interpolate_clearance_table` on a single, already-sorted
table section. -/
theorem interp_eq (tbl : List (ℚ × ℚ)) (hne : tbl ≠ [])
    (hs : List.Chain' tableStep tbl) (v : ℚ) :
    _interpolate_clearance_table [tbl] v =
      (if v ≤ 0 then 13 / 100
       else if v ≤ (tblHead tbl).1 then (tblHead tbl).2
       else if v ≥ (tblLast tbl).1 then (tblLast tbl).2
       else match interpLoop tbl v with
         | some c => c
         | none => 13 / 100) := by
  unfold _interpolate_clearance_table
  have hj : ([tbl] : List (List (ℚ × ℚ))).flatten = tbl := by simp
  simp only [hj]
  rw [if_neg hne, sortByVoltage_eq_self tbl (hs.imp fun _ _ h => h.1)]

/-- C3, counterexample: for the ascending table `[(10, 1/2)]` the query 0 is
at or below the lowest voltage, so the claim demands the lowest distance
`1/2`, but the code returns the fixed 0.13 mm fabrication minimum; and for
the voltage-ascending table `[(10, 1/20), (20, 1/100)]` the result strictly
decreases from query 10 to query 20. -/
theorem C3_counterexample :
    _interpolate_clearance_table [[(10, 1 / 2)]] 0 = 13 / 100 ∧
    (13 / 100 : ℚ) ≠ 1 / 2 ∧
    _interpolate_clearance_table [[(10, 1 / 20), (20, 1 / 100)]] 10 = 1 / 20 ∧
    _interpolate_clearance_table [[(10, 1 / 20), (20, 1 / 100)]] 20 = 1 / 100 ∧
    ¬(_interpolate_clearance_table [[(10, 1 / 20), (20, 1 / 100)]] 10 ≤
        _interpolate_clearance_table [[(10, 1 / 20), (20, 1 / 100)]] 20) := by
  refine ⟨?_, by norm_num, ?_, ?_, ?_⟩ <;> with_unfolding_all decide

/-- C3, amended: for a well-formed table (strictly ascending voltages,
non-decreasing distances, positive lowest voltage),
`_interpolate_clearance_table` is monotone non-decreasing over positive
query voltages; a positive query at or below the lowest voltage returns the
lowest entry's distance; a query at or above the highest voltage returns the
highest entry's distance; and a query `≤ 0` returns the fixed 0.13 mm
fabrication minimum instead of the lowest entry's distance. -/
theorem C3_theorem (tbl : List (ℚ × ℚ)) (hne : tbl ≠ [])
    (hs : List.Chain' tableStep tbl) (hpos : 0 < (tblHead tbl).1) :
    (∀ v1 v2, 0 < v1 → v1 ≤ v2 →
      _interpolate_clearance_table [tbl] v1 ≤ _interpolate_clearance_table [tbl] v2) ∧
    (∀ v, 0 < v → v ≤ (tblHead tbl).1 →
      _interpolate_clearance_table [tbl] v = (tblHead tbl).2) ∧
    (∀ v, (tblLast tbl).1 ≤ v →
      _interpolate_clearance_table [tbl] v = (tblLast tbl).2) ∧
    (∀ v, v ≤ 0 → _interpolate_clearance_table [tbl] v = 13 / 100) := by
  obtain ⟨a, xs⟩ : ∃ a xs, tbl = a :: xs := by
    cases tbl with
    | nil => exact absurd rfl hne
    | cons a xs => exact ⟨a, xs, rfl⟩
  obtain ⟨xs, rfl⟩ := xs
  have hhead : tblHead (a :: xs) = a := rfl
  refine ⟨?_, ?_, ?_, ?_⟩
  · -- monotonicity over positive queries
    intro v1 v2 hv1pos h12
    rw [interp_eq _ hne hs, interp_eq _ hne hs]
    rw [if_neg (not_le.mpr hv1pos)]
    rw [if_neg (show ¬v2 ≤ 0 from not_le.mpr (lt_of_lt_of_le hv1pos h12))]
    by_cases ha1 : v1 ≤ (tblHead (a :: xs)).1
    · rw [if_pos ha1]
      by_cases ha2 : v2 ≤ (tblHead (a :: xs)).1
      · rw [if_pos ha2]
      · rw [if_neg ha2]
        by_cases hb2 : v2 ≥ (tblLast (a :: xs)).1
        · rw [if_pos hb2]
          exact tableStep_head2_le_last2 a xs hs
        · rw [if_neg hb2]
          cases xs with
          | nil =>
            exact absurd (le_of_lt (not_le.mp ha2)) (fun hh => hb2 hh)
          | cons b rest =>
            have hbnd := interpLoop_bounds rest a b v2 hs
              (le_of_lt (not_le.mp ha2))
              (by rw [← tblLast_cons_cons a]; exact le_of_lt (not_le.mp hb2))
            obtain ⟨c, hc, hlb, _⟩ := hbnd
            rw [hc]
            exact hlb
    · rw [if_neg ha1]
      have ha2 : ¬ v2 ≤ (tblHead (a :: xs)).1 := fun hh => ha1 (le_trans h12 hh)
      rw [if_neg ha2]
      by_cases hb1 : v1 ≥ (tblLast (a :: xs)).1
      · rw [if_pos hb1, if_pos (le_trans hb1 h12)]
      · rw [if_neg hb1]
        cases xs with
        | nil => exact absurd (le_of_lt (not_le.mp ha1)) (fun hh => hb1 hh)
        | cons b rest =>
          by_cases hb2 : v2 ≥ (tblLast (a :: b :: rest)).1
          · rw [if_pos hb2]
            have hbnd := interpLoop_bounds rest a b v1 hs
              (le_of_lt (not_le.mp ha1))
              (by rw [← tblLast_cons_cons a]; exact le_of_lt (not_le.mp hb1))
            obtain ⟨c, hc, _, hub⟩ := hbnd
            rw [hc, tblLast_cons_cons a]
            exact hub
          · rw [if_neg hb2]
            have hbnd1 := interpLoop_bounds rest a b v1 hs
              (le_of_lt (not_le.mp ha1))
              (by rw [← tblLast_cons_cons a]; exact le_of_lt (not_le.mp hb1))
            have hbnd2 := interpLoop_bounds rest a b v2 hs
              (le_trans (le_of_lt (not_le.mp ha1)) h12)
              (by rw [← tblLast_cons_cons a]; exact le_of_lt (not_le.mp hb2))
            obtain ⟨c1, hc1, _, _⟩ := hbnd1
            obtain ⟨c2, hc2, _, _⟩ := hbnd2
            rw [hc1, hc2]
            exact interpLoop_mono rest a b v1 v2 hs (le_of_lt (not_le.mp ha1)) h12
              (by rw [← tblLast_cons_cons a]; exact le_of_lt (not_le.mp hb2)) c1 c2 hc1 hc2
  · -- low clamp for positive queries
    intro v hv hle
    rw [interp_eq _ hne hs, if_neg (not_le.mpr hv), if_pos hle]
  · -- high clamp
    intro v hge
    have hv : 0 < v := lt_of_lt_of_le (lt_of_lt_of_le hpos (tableStep_head1_le_last1 a xs hs)) hge
    rw [interp_eq _ hne hs, if_neg (not_le.mpr hv)]
    by_cases hle : v ≤ (tblHead (a :: xs)).1
    · rw [if_pos hle]
      have h1 := tableStep_head1_le_last1 a xs hs
      have h2 := tableStep_head2_le_last2 a xs hs
      have : (tblLast (a :: xs)).1 = (tblHead (a :: xs)).1 := le_antisymm (le_trans hge hle) h1
      cases xs with
      | nil => rfl
      | cons b rest =>
        have hab : tableStep a b := (List.chain'_cons.mp hs).1
        have hb1 : b.1 ≤ (tblLast (a :: b :: rest)).1 := by
          rw [tblLast_cons_cons]
          exact tableStep_head1_le_last1 b rest (List.chain'_cons.mp hs).2
        rw [hhead] at this
        have : a.1 < a.1 := lt_of_lt_of_le hab.1 (le_trans hb1 (le_of_eq this))
        exact absurd this (lt_irrefl _)
    · rw [if_neg hle, if_pos hge]
  · -- queries at or below zero return the fabrication minimum
    intro v hv
    rw [interp_eq _ hne hs, if_pos hv]

/-- C3, witness: the amended theorem applied to the concrete table
`[(10, 1/2), (20, 3/4)]`. -/
theorem C3_witness :
    _interpolate_clearance_table [[(10, 1 / 2), (20, 3 / 4)]] 12 ≤
      _interpolate_clearance_table [[(10, 1 / 2), (20, 3 / 4)]] 17 ∧
    _interpolate_clearance_table [[(10, 1 / 2), (20, 3 / 4)]] 5 = 1 / 2 ∧
    _interpolate_clearance_table [[(10, 1 / 2), (20, 3 / 4)]] 25 = 3 / 4 ∧
    _interpolate_clearance_table [[(10, 1 / 2), (20, 3 / 4)]] (-3) = 13 / 100 := by
  have h := C3_theorem [(10, 1 / 2), (20, 3 / 4)] (by simp)
    (by constructor
        · constructor <;> norm_num
        · simp [List.Chain'])
    (by norm_num [tblHead])
  exact ⟨h.1 12 17 (by norm_num) (by norm_num),
    h.2.1 5 (by norm_num) (by norm_num [tblHead]),
    h.2.2.1 25 (by norm_num [tblLast]),
    h.2.2.2 (-3) (by norm_num)⟩

/-! ### Claim C4: the required-clearance lookup -/

/-- Substring test on character lists (Python `'In' in layer_name`). -/
def subOf (n : List Char) : List Char → Bool
  | [] => n.isEmpty
  | c :: rest => n.isPrefixOf (c :: rest) || subOf n rest

/-- The pcbnew layer-id constants `pcbnew.F_Cu` and `pcbnew.B_Cu` (external
collaborator; only identity comparisons matter). -/
def pcbnew_F_Cu : ℤ := 0

/-- See `pcbnew_F_Cu`. -/
def pcbnew_B_Cu : ℤ := 2

/-- A board layer: the pcbnew layer id together with the name the external
`board.GetLayerName` reports for it. -/
structure Layer where
  id : ℤ
  name : String
deriving DecidableEq, Repr

/-- ClearanceCreepageChecker._is_external_layer: F.Cu/B.Cu ids are external,
names containing both `In` and `.Cu` are internal, anything else defaults to
external. -/
def _is_external_layer (layer : Layer) : Bool :=
  if layer.id == pcbnew_F_Cu || layer.id == pcbnew_B_Cu then true
  else if subOf "In".toList layer.name.toList && subOf ".Cu".toList layer.name.toList then false
  else true

/-- One entry of the `isolation_requirements` configuration list. -/
structure IsoReq where
  domain_a : String
  domain_b : String
  min_clearance_mm : ℚ
  isolation_type : String
deriving Repr

/-- The `[clearance_creepage]` configuration slice the lookup reads;
`overvoltage_category_factors` models the Python `dict.get(cat, 1.0)` as a
total function. -/
structure Config where
  isolation_requirements : List IsoReq
  iec60664_clearance_table : List (List (ℚ × ℚ))
  overvoltage_category_factors : String → ℚ
  safety_margin_factor : ℚ
  internal_layer_clearance_factor : ℚ

/-- The parsed standard parameters the lookup reads. -/
structure StdParams where
  overvoltage_category : String
  altitude_m : ℚ

/-- The per-pair override match of step 1 of `_lookup_required_clearance`
(both orders of the domain names). -/
def isoReqMatches (req : IsoReq) (domain_a domain_b : String) : Bool :=
  (req.domain_a == domain_a && req.domain_b == domain_b) ||
    (req.domain_a == domain_b && req.domain_b == domain_a)

/-- ClearanceCreepageChecker._lookup_required_clearance: per-pair override,
else interpolated base with overvoltage-category factor (voltage ≥ 12 V),
then reinforced ×2, safety margin, altitude correction above 2000 m, and
internal-layer reduction.  Returns (required clearance, isolation type); the
human-readable description string of the source is elided. -/
def _lookup_required_clearance (cfg : Config) (sp : StdParams)
    (domain_a domain_b : String) (voltage_a voltage_b : ℚ)
    (reinforced_a reinforced_b : Bool) (layer_a layer_b : Option Layer) :
    ℚ × String :=
  match cfg.isolation_requirements.find? (fun req => isoReqMatches req domain_a domain_b) with
  | some req => (req.min_clearance_mm, req.isolation_type)
  | none =>
    let voltage_diff := |voltage_a - voltage_b|
    let clearance :=
      if voltage_diff < 12 then
        _interpolate_clearance_table cfg.iec60664_clearance_table voltage_diff
      else
        let c := _interpolate_clearance_table cfg.iec60664_clearance_table voltage_diff
        let ovc_factor := cfg.overvoltage_category_factors sp.overvoltage_category
        if ovc_factor ≠ 1 then c * ovc_factor else c
    let isolation_type := if reinforced_a || reinforced_b then "reinforced" else "basic"
    let clearance := if reinforced_a || reinforced_b then clearance * 2 else clearance
    let clearance := clearance * cfg.safety_margin_factor
    let clearance :=
      if sp.altitude_m > 2000 then clearance * (1 + 1 / 4000 * (sp.altitude_m - 2000))
      else clearance
    let clearance :=
      match layer_a, layer_b with
      | some la, some lb =>
        if _is_external_layer la = false ∧ _is_external_layer lb = false then
          clearance * cfg.internal_layer_clearance_factor
        else clearance
      | _, _ => clearance
    (clearance, isolation_type)

/-- Steps 2 of the lookup: the interpolated table value with the
overvoltage-category correction (the "interpolated-and-corrected base"). -/
def clearanceBase (cfg : Config) (sp : StdParams) (voltage_a voltage_b : ℚ) : ℚ :=
  let voltage_diff := |voltage_a - voltage_b|
  if voltage_diff < 12 then
    _interpolate_clearance_table cfg.iec60664_clearance_table voltage_diff
  else
    let c := _interpolate_clearance_table cfg.iec60664_clearance_table voltage_diff
    let ovc_factor := cfg.overvoltage_category_factors sp.overvoltage_category
    if ovc_factor ≠ 1 then c * ovc_factor else c

/-- Step 5 of the lookup as a multiplicative factor. -/
def altitudeFactor (sp : StdParams) : ℚ :=
  if sp.altitude_m > 2000 then 1 + 1 / 4000 * (sp.altitude_m - 2000) else 1

/-- Step 6 of the lookup as a multiplicative factor. -/
def layerFactor (cfg : Config) (layer_a layer_b : Option Layer) : ℚ :=
  match layer_a, layer_b with
  | some la, some lb =>
    if _is_external_layer la = false ∧ _is_external_layer lb = false then
      cfg.internal_layer_clearance_factor
    else 1
  | _, _ => 1

set_option maxHeartbeats 1000000 in
/-- Decomposition of the non-override path of the lookup into its
multiplicative steps, in the order the source applies them. -/
theorem lookup_decomp (cfg : Config) (sp : StdParams) (da db : String)
    (va vb : ℚ) (ra rb : Bool) (la lb : Option Layer)
    (hno : ∀ req ∈ cfg.isolation_requirements, isoReqMatches req da db = false) :
    (_lookup_required_clearance cfg sp da db va vb ra rb la lb).1 =
      (((if ra || rb then clearanceBase cfg sp va vb * 2 else clearanceBase cfg sp va vb) *
          cfg.safety_margin_factor) * altitudeFactor sp) * layerFactor cfg la lb := by
  have hf : cfg.isolation_requirements.find?
      (fun req => isoReqMatches req da db) = none :=
    List.find?_eq_none.mpr (fun req hmem => by simp [hno req hmem])
  simp only [_lookup_required_clearance, hf, clearanceBase, altitudeFactor, layerFactor]
  rcases la with _ | la <;> rcases lb with _ | lb <;>
    split_ifs <;> try ring
  all_goals (split_ifs <;> ring)

/-- C4, confirmed: with no matching per-pair override and at least one
reinforced flag set, the required clearance is exactly twice the clearance
for the same inputs with both flags cleared; the doubling applies to the
interpolated-and-OVC-corrected base value before the safety margin is
multiplied in, and the isolation type reads "reinforced". -/
theorem C4_theorem (cfg : Config) (sp : StdParams) (da db : String)
    (va vb : ℚ) (ra rb : Bool) (la lb : Option Layer)
    (hno : ∀ req ∈ cfg.isolation_requirements, isoReqMatches req da db = false)
    (hr : ra = true ∨ rb = true) :
    (_lookup_required_clearance cfg sp da db va vb ra rb la lb).1 =
      2 * (_lookup_required_clearance cfg sp da db va vb false false la lb).1 ∧
    (_lookup_required_clearance cfg sp da db va vb ra rb la lb).1 =
      (((clearanceBase cfg sp va vb * 2) * cfg.safety_margin_factor) *
        altitudeFactor sp) * layerFactor cfg la lb ∧
    (_lookup_required_clearance cfg sp da db va vb ra rb la lb).2 = "reinforced" := by
  have hor : (ra || rb) = true := by
    rcases hr with h | h <;> simp [h]
  have h1 := lookup_decomp cfg sp da db va vb ra rb la lb hno
  have h2 := lookup_decomp cfg sp da db va vb false false la lb hno
  rw [hor, if_pos rfl] at h1
  simp only [Bool.or_self, if_neg Bool.false_ne_true] at h2
  refine ⟨?_, by rw [h1], ?_⟩
  · rw [h1, h2]; ring
  · have hf : cfg.isolation_requirements.find?
        (fun req => isoReqMatches req da db) = none :=
      List.find?_eq_none.mpr (fun req hmem => by simp [hno req hmem])
    simp only [_lookup_required_clearance, hf, hor, if_pos]

/-- A concrete configuration with no isolation overrides, for the C4
witness. -/
def cfgW : Config where
  isolation_requirements := []
  iec60664_clearance_table := [[(10, 1 / 2), (20, 3 / 4)]]
  overvoltage_category_factors := fun _ => 1
  safety_margin_factor := 6 / 5
  internal_layer_clearance_factor := 3 / 5

/-- Concrete standard parameters for the C4 witness. -/
def spW : StdParams where
  overvoltage_category := "II"
  altitude_m := 1000

/-- C4, witness: the reinforced lookup on the concrete configuration is
exactly twice the basic lookup. -/
theorem C4_witness :
    (_lookup_required_clearance cfgW spW "A" "B" 5 0 true false none none).1 =
      2 * (_lookup_required_clearance cfgW spW "A" "B" 5 0 false false none none).1 ∧
    (_lookup_required_clearance cfgW spW "A" "B" 5 0 true false none none).2 =
      "reinforced" :=
  ⟨(C4_theorem cfgW spW "A" "B" 5 0 true false none none
      (by intro req hmem; simp [cfgW] at hmem) (Or.inl rfl)).1,
    (C4_theorem cfgW spW "A" "B" 5 0 true false none none
      (by intro req hmem; simp [cfgW] at hmem) (Or.inl rfl)).2.2⟩

/-! ### Claims C5 and C10: the clearance engine -/

/-- The slice of pcbnew.PAD the clearance engine reads: `GetPosition()`,
`GetSize()`, `GetLayer()`, and the outline polygon that the external
`TransformShapeToPolygon` (via `_get_pad_polygon`) produces for it. -/
structure Pad where
  pos : Vec2
  size : Vec2
  layer : Layer
  poly : PolySet
deriving DecidableEq, Repr

/-- One feature tuple `(ftype, pad, pos, net, voltage_rms, reinforced)`
built by `_get_copper_features_by_domain`. -/
structure Feature where
  ftype : String
  pad : Pad
  pos : Vec2
  net : String
  voltage : ℚ
  reinforced : Bool
deriving DecidableEq, Repr

/-- The closest-pair data `_calculate_clearance` accumulates alongside the
running minimum. -/
structure ClosestRec where
  point_a : Vec2
  point_b : Vec2
  net_a : String
  net_b : String
  layer_a : Layer
  layer_b : Layer
deriving DecidableEq, Repr

/-- One iteration of the pad-pair loop of `_calculate_clearance`: the
center-distance prefilter (skip when the cheap bound is more than 2 mm above
the current minimum), then the exact polygon distance clamped to `≥ 0`,
updating the running minimum and closest-pair data. -/
def clearanceStep (fa fb : Feature) (st : WithTop ℚ × Option ClosestRec) :
    WithTop ℚ × Option ClosestRec :=
  let max_extent_a : ℚ := ((max fa.pad.size.x fa.pad.size.y : ℤ) : ℚ) / 2
  let max_extent_b : ℚ := ((max fb.pad.size.x fb.pad.size.y : ℤ) : ℚ) / 2
  let center_distance := get_distance fa.pos fb.pos
  let approx_edge_distance := center_distance - max_extent_a - max_extent_b
  if ((approx_edge_distance : ℚ) : WithTop ℚ) > st.1 + ((fromMM 2 : ℚ) : WithTop ℚ) then st
  else
    let edge_distance := _calculate_polygon_distance fa.pad.poly fb.pad.poly
    let edge_distance := max 0 edge_distance
    if edge_distance < st.1 then
      (edge_distance, some ⟨fa.pos, fb.pos, fa.net, fb.net, fa.pad.layer, fb.pad.layer⟩)
    else st

/-- ClearanceCreepageChecker._calculate_clearance: `none` for empty feature
lists, otherwise the double loop over all pad pairs with the prefilter, and
the final conversion of the minimum to millimetres (`none` when the minimum
stayed infinite). -/
def _calculate_clearance (features_a features_b : List Feature) :
    Option (ℚ × ClosestRec) :=
  if features_a = [] ∨ features_b = [] then none
  else
    let final := features_a.foldl
      (fun st fa => features_b.foldl (fun st fb => clearanceStep fa fb st) st)
      ((⊤ : WithTop ℚ), none)
    if final.1 = ⊤ then none
    else
      match final.2 with
      | some c => some (toMM (final.1.untop' 0), c)
      | none => none

/-- Each pad-pair step can only lower the running minimum. -/
theorem clearanceStep_min_le (fa fb : Feature) (st : WithTop ℚ × Option ClosestRec) :
    (clearanceStep fa fb st).1 ≤ st.1 := by
  simp only [clearanceStep]
  split_ifs with h1 h2
  · exact le_refl _
  · exact le_of_lt h2
  · exact le_refl _

/-- Each pad-pair step keeps the running minimum nonnegative. -/
theorem clearanceStep_nonneg (fa fb : Feature) (st : WithTop ℚ × Option ClosestRec)
    (h : 0 ≤ st.1) : 0 ≤ (clearanceStep fa fb st).1 := by
  simp only [clearanceStep]
  split_ifs with h1 h2
  · exact h
  · exact le_max_left _ _
  · exact h

/-- Each pad-pair step preserves the linkage between an infinite minimum
and an absent closest pair. -/
theorem clearanceStep_inv (fa fb : Feature) (st : WithTop ℚ × Option ClosestRec)
    (h : (st.1 = ⊤ ∧ st.2 = none) ∨ (st.1 ≠ ⊤ ∧ ∃ c, st.2 = some c)) :
    ((clearanceStep fa fb st).1 = ⊤ ∧ (clearanceStep fa fb st).2 = none) ∨
      ((clearanceStep fa fb st).1 ≠ ⊤ ∧ ∃ c, (clearanceStep fa fb st).2 = some c) := by
  simp only [clearanceStep]
  split_ifs with h1 h2
  · exact h
  · exact Or.inr ⟨ne_top_of_lt (lt_of_lt_of_le h2 le_top), _, rfl⟩
  · exact h

/-- The minimum after a step is bounded by the pair's center distance or its
clamped exact polygon distance (pad sizes nonnegative): a skipped pair
forces the current minimum strictly below its center distance, a processed
pair forces it at most the clamped polygon distance. -/
theorem clearanceStep_bound (fa fb : Feature) (st : WithTop ℚ × Option ClosestRec)
    (hsa : 0 ≤ fa.pad.size.x ∨ 0 ≤ fa.pad.size.y)
    (hsb : 0 ≤ fb.pad.size.x ∨ 0 ≤ fb.pad.size.y) :
    (clearanceStep fa fb st).1 ≤
      max ((get_distance fa.pos fb.pos : ℚ) : WithTop ℚ)
        (max 0 (_calculate_polygon_distance fa.pad.poly fb.pad.poly)) := by
  have hea : (0 : ℚ) ≤ ((max fa.pad.size.x fa.pad.size.y : ℤ) : ℚ) / 2 := by
    have h0 : (0 : ℤ) ≤ max fa.pad.size.x fa.pad.size.y := by
      rcases hsa with h | h
      · exact le_trans h (le_max_left _ _)
      · exact le_trans h (le_max_right _ _)
    positivity
  have heb : (0 : ℚ) ≤ ((max fb.pad.size.x fb.pad.size.y : ℤ) : ℚ) / 2 := by
    have h0 : (0 : ℤ) ≤ max fb.pad.size.x fb.pad.size.y := by
      rcases hsb with h | h
      · exact le_trans h (le_max_left _ _)
      · exact le_trans h (le_max_right _ _)
    positivity
  simp only [clearanceStep]
  split_ifs with h1 h2
  · -- skipped pair: current minimum strictly below its center distance
    refine le_trans ?_ (le_max_left _ _)
    by_cases htop : st.1 = ⊤
    · rw [htop] at h1
      simp at h1
    · obtain ⟨q, hq⟩ := WithTop.ne_top_iff_exists.mp htop
      rw [← hq] at h1 ⊢
      rw [← WithTop.coe_add] at h1
      have h1' := WithTop.coe_lt_coe.mp h1
      rw [WithTop.coe_le_coe]
      have h2mm : (0 : ℚ) < fromMM 2 := by norm_num [fromMM]
      linarith
  · exact le_max_right _ _
  · exact le_trans (not_lt.mp h2) (le_max_right _ _)

/-- The inner pad-pair fold only lowers the running minimum. -/
theorem foldl_inner_min_le (B : List Feature) (fa : Feature)
    (st : WithTop ℚ × Option ClosestRec) :
    (B.foldl (fun st fb => clearanceStep fa fb st) st).1 ≤ st.1 := by
  induction B generalizing st with
  | nil => exact le_refl _
  | cons b B' ih => exact le_trans (ih _) (clearanceStep_min_le fa b st)

/-- The outer pad-pair fold only lowers the running minimum. -/
theorem foldl_outer_min_le (A B : List Feature)
    (st : WithTop ℚ × Option ClosestRec) :
    (A.foldl (fun st fa => B.foldl (fun st fb => clearanceStep fa fb st) st) st).1 ≤ st.1 := by
  induction A generalizing st with
  | nil => exact le_refl _
  | cons a A' ih => exact le_trans (ih _) (foldl_inner_min_le B a st)

/-- The double fold keeps the running minimum nonnegative. -/
theorem foldl_outer_nonneg (A B : List Feature)
    (st : WithTop ℚ × Option ClosestRec) (h : 0 ≤ st.1) :
    0 ≤ (A.foldl (fun st fa => B.foldl (fun st fb => clearanceStep fa fb st) st) st).1 := by
  induction A generalizing st with
  | nil => exact h
  | cons a A' ih =>
    refine ih _ ?_
    clear ih
    induction B generalizing st with
    | nil => exact h
    | cons b B' ihB => exact ihB _ (clearanceStep_nonneg a b st h)

/-- The double fold preserves the minimum/closest-pair linkage. -/
theorem foldl_outer_inv (A B : List Feature)
    (st : WithTop ℚ × Option ClosestRec)
    (h : (st.1 = ⊤ ∧ st.2 = none) ∨ (st.1 ≠ ⊤ ∧ ∃ c, st.2 = some c)) :
    ((A.foldl (fun st fa => B.foldl (fun st fb => clearanceStep fa fb st) st) st).1 = ⊤ ∧
        (A.foldl (fun st fa => B.foldl (fun st fb => clearanceStep fa fb st) st) st).2 = none) ∨
      ((A.foldl (fun st fa => B.foldl (fun st fb => clearanceStep fa fb st) st) st).1 ≠ ⊤ ∧
        ∃ c, (A.foldl (fun st fa => B.foldl (fun st fb => clearanceStep fa fb st) st) st).2 = some c) := by
  induction A generalizing st with
  | nil => exact h
  | cons a A' ih =>
    refine ih _ ?_
    clear ih
    induction B generalizing st with
    | nil => exact h
    | cons b B' ihB => exact ihB _ (clearanceStep_inv a b st h)

/-- After the inner fold, the minimum is bounded by the given pair's center
distance / clamped polygon distance. -/
theorem foldl_inner_bound : ∀ (B : List Feature) (fa fb : Feature), fb ∈ B →
    0 ≤ fa.pad.size.x → 0 ≤ fb.pad.size.x →
    ∀ st : WithTop ℚ × Option ClosestRec,
    (B.foldl (fun st fb => clearanceStep fa fb st) st).1 ≤
      max ((get_distance fa.pos fb.pos : ℚ) : WithTop ℚ)
        (max 0 (_calculate_polygon_distance fa.pad.poly fb.pad.poly))
  | [], _, fb, hfb, _, _, _ => absurd hfb (List.not_mem_nil fb)
  | b :: B', fa, fb, hfb, hsa, hsb, st => by
    rcases List.mem_cons.mp hfb with rfl | hfb'
    · exact le_trans (foldl_inner_min_le B' fa _)
        (clearanceStep_bound fa fb st (Or.inl hsa) (Or.inl hsb))
    · exact foldl_inner_bound B' fa fb hfb' hsa hsb _

/-- After the double fold, the minimum is bounded by every pair's center
distance / clamped polygon distance (pad sizes nonnegative). -/
theorem foldl_outer_bound : ∀ (A : List Feature) (B : List Feature) (fa fb : Feature),
    fa ∈ A → fb ∈ B → 0 ≤ fa.pad.size.x → 0 ≤ fb.pad.size.x →
    ∀ st : WithTop ℚ × Option ClosestRec,
    (A.foldl (fun st fa => B.foldl (fun st fb => clearanceStep fa fb st) st) st).1 ≤
      max ((get_distance fa.pos fb.pos : ℚ) : WithTop ℚ)
        (max 0 (_calculate_polygon_distance fa.pad.poly fb.pad.poly))
  | [], _, fa, _, hfa, _, _, _, _ => absurd hfa (List.not_mem_nil fa)
  | a :: A', B, fa, fb, hfa, hfb, hsa, hsb, st => by
    rcases List.mem_cons.mp hfa with rfl | hfa'
    · exact le_trans (foldl_outer_min_le A' B _)
        (foldl_inner_bound B fa fb hfb hsa hsb st)
    · exact foldl_outer_bound A' B fa fb hfa' hfb hsa hsb _

/-- `toMM` is monotone. -/
theorem toMM_mono {a b : ℚ} (h : a ≤ b) : toMM a ≤ toMM b := by
  unfold toMM
  gcongr

/-- C5, amended: `_calculate_clearance` returns `none` when either feature
list is empty; a returned minimum distance is never negative; and for every
feature pair it never exceeds the larger of that pair's center-to-center
distance and that pair's exact clamped polygon distance (in millimetres).
The claim's stronger bound — the center distance alone — fails for
overlapping pads (see the counterexample). -/
theorem C5_theorem (features_a features_b : List Feature)
    (hsize : ∀ f ∈ features_a ++ features_b, 0 ≤ f.pad.size.x ∧ 0 ≤ f.pad.size.y) :
    (features_a = [] ∨ features_b = [] →
      _calculate_clearance features_a features_b = none) ∧
    (∀ d c, _calculate_clearance features_a features_b = some (d, c) → 0 ≤ d) ∧
    (∀ d c, _calculate_clearance features_a features_b = some (d, c) →
      ∀ fa ∈ features_a, ∀ fb ∈ features_b,
        d ≤ toMM (get_distance fa.pos fb.pos) ∨
        max 0 (_calculate_polygon_distance fa.pad.poly fb.pad.poly) = ⊤ ∨
        d ≤ toMM ((max 0 (_calculate_polygon_distance fa.pad.poly fb.pad.poly)).untop' 0)) := by
  refine ⟨fun h => by simp only [_calculate_clearance, if_pos h], ?_, ?_⟩
  · intro d c hsome
    by_cases hemp : features_a = [] ∨ features_b = []
    · simp [_calculate_clearance, if_pos hemp] at hsome
    · simp only [_calculate_clearance, if_neg hemp] at hsome
      set final := features_a.foldl
        (fun st fa => features_b.foldl (fun st fb => clearanceStep fa fb st) st)
        ((⊤ : WithTop ℚ), none) with hfinal
      by_cases htop : final.1 = ⊤
      · simp [htop] at hsome
      · simp only [if_neg htop] at hsome
        obtain ⟨q, hq⟩ := WithTop.ne_top_iff_exists.mp htop
        have hnn : 0 ≤ final.1 := foldl_outer_nonneg _ _ _ le_top
        rw [← hq] at hnn
        have hq0 : (0 : ℚ) ≤ q := by exact_mod_cast hnn
        cases hc2 : final.2 with
        | none => rw [hc2] at hsome; simp at hsome
        | some c' =>
          rw [hc2] at hsome
          simp only [Option.some.injEq, Prod.mk.injEq] at hsome
          obtain ⟨hd, _⟩ := hsome
          rw [← hd, ← hq, WithTop.untop'_coe]
          unfold toMM
          positivity
  · intro d c hsome fa hfa fb hfb
    by_cases hemp : features_a = [] ∨ features_b = []
    · simp [_calculate_clearance, if_pos hemp] at hsome
    · simp only [_calculate_clearance, if_neg hemp] at hsome
      set final := features_a.foldl
        (fun st fa => features_b.foldl (fun st fb => clearanceStep fa fb st) st)
        ((⊤ : WithTop ℚ), none) with hfinal
      by_cases htop : final.1 = ⊤
      · simp [htop] at hsome
      · simp only [if_neg htop] at hsome
        obtain ⟨q, hq⟩ := WithTop.ne_top_iff_exists.mp htop
        cases hc2 : final.2 with
        | none => rw [hc2] at hsome; simp at hsome
        | some c' =>
          rw [hc2] at hsome
          simp only [Option.some.injEq, Prod.mk.injEq] at hsome
          obtain ⟨hd, _⟩ := hsome
          have hbnd := foldl_outer_bound features_a features_b fa fb hfa hfb
            (hsize fa (List.mem_append.mpr (Or.inl hfa))).1
            (hsize fb (List.mem_append.mpr (Or.inr hfb))).1
            ((⊤ : WithTop ℚ), none)
          rw [← hfinal, ← hq] at hbnd
          rcases le_max_iff.mp hbnd with hle | hle
          · left
            rw [← hd, ← hq, WithTop.untop'_coe]
            exact toMM_mono (WithTop.coe_le_coe.mp hle)
          · by_cases hPD : max 0 (_calculate_polygon_distance fa.pad.poly fb.pad.poly) = ⊤
            · exact Or.inr (Or.inl hPD)
            · right; right
              obtain ⟨e, he⟩ := WithTop.ne_top_iff_exists.mp hPD
              rw [← he] at hle
              rw [← hd, ← hq, WithTop.untop'_coe, ← he, WithTop.untop'_coe]
              exact toMM_mono (WithTop.coe_le_coe.mp hle)

/-- Pads forming the overlapping cross of `crossOutlineA`/`crossOutlineB`,
both centred at the origin. -/
def crossPadA : Pad := ⟨⟨0, 0⟩, ⟨6000000, 2000000⟩, ⟨0, "F.Cu"⟩, [crossOutlineA]⟩

/-- See `crossPadA`. -/
def crossPadB : Pad := ⟨⟨0, 0⟩, ⟨2000000, 6000000⟩, ⟨0, "F.Cu"⟩, [crossOutlineB]⟩

/-- Feature wrapping `crossPadA`. -/
def crossFeatA : Feature := ⟨"pad", crossPadA, ⟨0, 0⟩, "NetA", 230, false⟩

/-- Feature wrapping `crossPadB`. -/
def crossFeatB : Feature := ⟨"pad", crossPadB, ⟨0, 0⟩, "NetB", 0, false⟩

/-- C5, counterexample: two overlapping cross-shaped pads at the same
position have center distance 0, yet `_calculate_clearance` reports a
2 mm minimum clearance — the reported minimum exceeds the minimum
center-to-center distance. -/
theorem C5_counterexample :
    _calculate_clearance [crossFeatA] [crossFeatB] =
      some (2, ⟨⟨0, 0⟩, ⟨0, 0⟩, "NetA", "NetB", ⟨0, "F.Cu"⟩, ⟨0, "F.Cu"⟩⟩) ∧
    toMM (get_distance crossFeatA.pos crossFeatB.pos) = 0 ∧
    ¬((2 : ℚ) ≤ 0) := by
  refine ⟨by with_unfolding_all decide, by with_unfolding_all decide, by norm_num⟩

/-- The closest-pair record of the `crossFeatA`/`crossFeatB` run. -/
def crossRec : ClosestRec := ⟨⟨0, 0⟩, ⟨0, 0⟩, "NetA", "NetB", ⟨0, "F.Cu"⟩, ⟨0, "F.Cu"⟩⟩

/-- C5, witness: the amended theorem applied to an empty list and to the
concrete cross pads (whose computed clearance is 2 mm). -/
theorem C5_witness :
    _calculate_clearance [] [crossFeatB] = none ∧
    (0 : ℚ) ≤ 2 ∧
    ((2 : ℚ) ≤ toMM (get_distance crossFeatA.pos crossFeatB.pos) ∨
      max 0 (_calculate_polygon_distance crossFeatA.pad.poly crossFeatB.pad.poly) = ⊤ ∨
      (2 : ℚ) ≤ toMM
        ((max 0 (_calculate_polygon_distance crossFeatA.pad.poly crossFeatB.pad.poly)).untop' 0)) :=
  ⟨(C5_theorem [] [crossFeatB] (by intro f hf; fin_cases hf <;> with_unfolding_all decide)).1
      (Or.inl rfl),
    (C5_theorem [crossFeatA] [crossFeatB]
        (by intro f hf; fin_cases hf <;> with_unfolding_all decide)).2.1
      2 crossRec (by with_unfolding_all decide),
    (C5_theorem [crossFeatA] [crossFeatB]
        (by intro f hf; fin_cases hf <;> with_unfolding_all decide)).2.2
      2 crossRec (by with_unfolding_all decide) crossFeatA (by simp) crossFeatB (by simp)⟩

/-- A scan over at least one vertex/edge pair, started from infinity, is
finite. -/
theorem polyDistScan_ne_top (thr : ℚ) (l : List (Vec2 × Vec2 × Vec2)) (hl : l ≠ []) :
    polyDistScan thr l ⊤ ≠ ⊤ := by
  cases l with
  | nil => exact absurd rfl hl
  | cons hd rest =>
    obtain ⟨p, s, e⟩ := hd
    simp only [polyDistScan]
    rw [if_pos (WithTop.coe_lt_top _)]
    split_ifs with h2
    · exact WithTop.coe_ne_top
    · exact ne_top_of_le_ne_top WithTop.coe_ne_top (polyDistScan_le _ _ _)

/-- The polygon distance is finite whenever both polygon sets have a
nonempty first outline. -/
theorem polyDist_ne_top (pa pb : PolySet)
    (ha : pa.headD [] ≠ []) (hb : pb.headD [] ≠ []) :
    _calculate_polygon_distance pa pb ≠ ⊤ := by
  cases pa with
  | nil => exact absurd rfl ha
  | cons oa pa' =>
    cases pb with
    | nil => exact absurd rfl hb
    | cons ob pb' =>
      simp only [List.headD_cons] at ha hb
      unfold _calculate_polygon_distance
      simp only [List.head?_cons]
      apply polyDistScan_ne_top
      cases oa with
      | nil => exact absurd rfl ha
      | cons x xs =>
        cases ob with
        | nil => exact absurd rfl hb
        | cons y ys =>
          simp [vertexEdgePairs]

/-- C10, amended: with both feature lists non-empty and every pad polygon
having a nonempty first outline, `_calculate_clearance` always returns a
result: the first pair survives the infinite-minimum prefilter, its polygon
distance is finite, and the minimum can only decrease afterwards. -/
theorem C10_theorem (features_a features_b : List Feature)
    (ha : features_a ≠ []) (hb : features_b ≠ [])
    (houtline : ∀ f ∈ features_a ++ features_b, f.pad.poly.headD [] ≠ []) :
    _calculate_clearance features_a features_b ≠ none := by
  obtain ⟨fa0, A', rfl⟩ : ∃ fa0 A', features_a = fa0 :: A' := by
    cases features_a with
    | nil => exact absurd rfl ha
    | cons fa0 A' => exact ⟨fa0, A', rfl⟩
  obtain ⟨fb0, B', rfl⟩ : ∃ fb0 B', features_b = fb0 :: B' := by
    cases features_b with
    | nil => exact absurd rfl hb
    | cons fb0 B' => exact ⟨fb0, B', rfl⟩
  have hPD := polyDist_ne_top fa0.pad.poly fb0.pad.poly
    (houtline fa0 (by simp)) (houtline fb0 (by simp))
  have hstep1 : (clearanceStep fa0 fb0 ((⊤ : WithTop ℚ), none)).1 ≠ ⊤ := by
    simp only [clearanceStep]
    rw [if_neg (by simp)]
    have hedge : max 0 (_calculate_polygon_distance fa0.pad.poly fb0.pad.poly) ≠ ⊤ := by
      obtain ⟨e, he⟩ := WithTop.ne_top_iff_exists.mp hPD
      rw [← he, ← WithTop.coe_zero, ← WithTop.coe_max]
      exact WithTop.coe_ne_top
    rw [if_pos (lt_top_iff_ne_top.mpr hedge)]
    exact hedge
  have hfin : ((fa0 :: A').foldl
      (fun st fa => (fb0 :: B').foldl (fun st fb => clearanceStep fa fb st) st)
      ((⊤ : WithTop ℚ), none)).1 ≠ ⊤ := by
    apply ne_top_of_le_ne_top hstep1
    rw [List.foldl_cons]
    refine le_trans (foldl_outer_min_le A' (fb0 :: B') _) ?_
    rw [List.foldl_cons]
    exact foldl_inner_min_le B' fa0 _
  have hinv := foldl_outer_inv (fa0 :: A') (fb0 :: B') ((⊤ : WithTop ℚ), none)
    (Or.inl ⟨rfl, rfl⟩)
  rcases hinv with ⟨h1, _⟩ | ⟨_, c, hc⟩
  · exact absurd h1 hfin
  · simp only [_calculate_clearance, if_neg (by simp : ¬((fa0 :: A') = [] ∨ (fb0 :: B') = []))]
    rw [if_neg hfin, hc]
    simp

/-- A feature whose pad polygon has one outline with no points (C10
counterexample). -/
def emptyOutlineFeatA : Feature :=
  ⟨"pad", ⟨⟨0, 0⟩, ⟨1000000, 1000000⟩, ⟨0, "F.Cu"⟩, [[]]⟩, ⟨0, 0⟩, "NA", 5, false⟩

/-- See `emptyOutlineFeatA`. -/
def emptyOutlineFeatB : Feature :=
  ⟨"pad", ⟨⟨1000000, 0⟩, ⟨1000000, 1000000⟩, ⟨0, "F.Cu"⟩, [[]]⟩, ⟨1000000, 0⟩, "NB", 0, false⟩

/-- C10, counterexample: both feature lists are nonempty and every pad
polygon has (exactly) one outline, yet `_calculate_clearance` returns
`none`: the single outline has no points, so the vertex-to-edge scan is
empty and the minimum stays infinite. -/
theorem C10_counterexample :
    _calculate_clearance [emptyOutlineFeatA] [emptyOutlineFeatB] = none ∧
    ([emptyOutlineFeatA] : List Feature) ≠ [] ∧
    ([emptyOutlineFeatB] : List Feature) ≠ [] ∧
    emptyOutlineFeatA.pad.poly.length = 1 ∧
    emptyOutlineFeatB.pad.poly.length = 1 := by
  refine ⟨by with_unfolding_all decide, by simp, by simp, rfl, rfl⟩

/-- C10, witness: the amended theorem applied to the two concrete cross
pads. -/
theorem C10_witness : _calculate_clearance [crossFeatA] [crossFeatB] ≠ none :=
  C10_theorem [crossFeatA] [crossFeatB] (by simp) (by simp)
    (by intro f hf; fin_cases hf <;> with_unfolding_all decide)

/-! ### Claim C1: the obstacle spatial index -/

/-- pcbnew.BOX2I: an axis-aligned box; `top ≤ bottom` in board coordinates
(y grows downward). -/
structure BBox where
  left : ℤ
  right : ℤ
  top : ℤ
  bottom : ℤ
deriving DecidableEq, Repr, Inhabited

/-- One obstacle dict of `_build_obstacle_map_for_layer`: the polygon, its
cached bounding box, the owner net and the feature kind (dict key
`'type'`). -/
structure Obstacle where
  polygon : PolySet
  bbox : BBox
  net : String
  kind : String
deriving DecidableEq, Repr, Inhabited

/-- Python `range(a, b + 1)` over integers. -/
def intRange (a b : ℤ) : List ℤ :=
  (List.range (b + 1 - a).toNat).map (fun i => a + (i : ℤ))

/-- Append an obstacle index to a grid cell's list, creating the cell on
first use (Python `self.grid[key].append(idx)` with the `not in` guard). -/
def gridInsert (g : List ((ℤ × ℤ) × List ℕ)) (key : ℤ × ℤ) (idx : ℕ) :
    List ((ℤ × ℤ) × List ℕ) :=
  match g with
  | [] => [(key, [idx])]
  | (k, l) :: rest =>
    if k = key then (k, l ++ [idx]) :: rest else (k, l) :: gridInsert rest key idx

/-- ObstacleSpatialIndex: the sparse cell grid over obstacle bounding
boxes.  `cell_size` is `pcbnew.FromMM(cell_size_mm)` in internal units. -/
structure ObstacleSpatialIndex where
  obstacles : List Obstacle
  cell_size : ℤ
  grid : List ((ℤ × ℤ) × List ℕ)

/-- ObstacleSpatialIndex.__init__: insert each obstacle into every grid
cell its bounding box overlaps (Python `//` is floor division, `Int.fdiv`). -/
def buildIndex (obstacles : List Obstacle) (cell_size : ℤ) : ObstacleSpatialIndex :=
  { obstacles := obstacles
    cell_size := cell_size
    grid := obstacles.enum.foldl (fun g p =>
      let bbox := p.2.bbox
      let min_cell_x := bbox.left.fdiv cell_size
      let max_cell_x := bbox.right.fdiv cell_size
      let min_cell_y := bbox.top.fdiv cell_size
      let max_cell_y := bbox.bottom.fdiv cell_size
      (intRange min_cell_x max_cell_x).foldl (fun g cx =>
        (intRange min_cell_y max_cell_y).foldl (fun g cy =>
          gridInsert g (cx, cy) p.1) g) g) [] }

/-- Grid lookup (Python `self.grid[cell]` guarded by `cell in self.grid`). -/
def gridGet (g : List ((ℤ × ℤ) × List ℕ)) (key : ℤ × ℤ) : List ℕ :=
  ((g.find? (fun kv => kv.1 = key)).map Prod.snd).getD []

/-- The loop body of ObstacleSpatialIndex._get_line_cells: Bresenham-style
stepping between the endpoint cells.  The fuel bound `dx + dy + 1` covers
the loop's standard runs; cells are collected in visit order (the set
semantics of the source collapses to this list, which Bresenham never
revisits). -/
def bresenhamLoop : ℕ → ℤ → ℤ → ℤ → ℤ → ℤ → ℤ → ℤ → ℤ → ℤ →
    List (ℤ × ℤ) → List (ℤ × ℤ)
  | 0, _, _, _, _, _, _, _, _, _, cells => cells
  | fuel + 1, x, y, x2, y2, sx, sy, dx, dy, err, cells =>
    let cells := cells ++ [(x, y)]
    if x = x2 ∧ y = y2 then cells
    else
      let e2 := 2 * err
      let err1 := if e2 > -dy then err - dy else err
      let x1 := if e2 > -dy then x + sx else x
      let err2 := if e2 < dx then err1 + dx else err1
      let y1 := if e2 < dx then y + sy else y
      bresenhamLoop fuel x1 y1 x2 y2 sx sy dx dy err2 cells

/-- ObstacleSpatialIndex._get_line_cells. -/
def _get_line_cells (idx : ObstacleSpatialIndex) (p1 p2 : Vec2) : List (ℤ × ℤ) :=
  let x1 := p1.x.fdiv idx.cell_size
  let y1 := p1.y.fdiv idx.cell_size
  let x2 := p2.x.fdiv idx.cell_size
  let y2 := p2.y.fdiv idx.cell_size
  let dx := |x2 - x1|
  let dy := |y2 - y1|
  let sx : ℤ := if x1 < x2 then 1 else -1
  let sy : ℤ := if y1 < y2 then 1 else -1
  let err := dx - dy
  bresenhamLoop (dx + dy + 1).toNat x1 y1 x2 y2 sx sy dx dy err []

/-- ObstacleSpatialIndex.get_obstacles_near_line: the union of the
obstacles registered in the cells the Bresenham walk visits (the source's
set of indices becomes a deduplicated list). -/
def get_obstacles_near_line (idx : ObstacleSpatialIndex) (p1 p2 : Vec2) :
    List Obstacle :=
  let cells := _get_line_cells idx p1 p2
  let obstacle_indices := (cells.flatMap (fun cell => gridGet idx.grid cell)).dedup
  obstacle_indices.map (fun i => idx.obstacles.getD i default)

/-- The point `p1 + t·(p2 − p1)` lies at `q`, with `t ∈ [0, 1]`: `q` is on
the segment `p1`–`p2`.  Used to state that a segment intersects a
polygon. -/
def pointOnSegment (p1 p2 : Vec2) (t : ℚ) (q : Vec2) : Prop :=
  0 ≤ t ∧ t ≤ 1 ∧
    (q.x : ℚ) = (p1.x : ℚ) + t * ((p2.x - p1.x : ℤ) : ℚ) ∧
    (q.y : ℚ) = (p1.y : ℚ) + t * ((p2.y - p1.y : ℤ) : ℚ)

/-- The obstacle of the C1 failing input: a 10 µm × 20 µm rectangle around
`(5025000, 7500000)`, entirely inside grid cell `(1, 1)` for the 5 mm cell
size. -/
def obsC1 : Obstacle :=
  { polygon := [[⟨5020000, 7490000⟩, ⟨5030000, 7490000⟩,
                 ⟨5030000, 7510000⟩, ⟨5020000, 7510000⟩]]
    bbox := ⟨5020000, 5030000, 7490000, 7510000⟩
    net := "GND"
    kind := "pad" }

/-- C1, failing input: the segment of the C1 counterexample. -/
def p1C1 : Vec2 := ⟨4950000, 0⟩

/-- See `p1C1`. -/
def p2C1 : Vec2 := ⟨5050000, 10000000⟩

/-- C1, code bug: the segment `p1C1`–`p2C1` passes through the obstacle's
polygon (the point at parameter `t = 3/4` is strictly inside it), the
obstacle is registered in the index (cell `(1,1)`), yet
`get_obstacles_near_line` returns the empty list: the Bresenham walk from
cell `(0,0)` to cell `(1,2)` steps through `(0,1)` and `(1,2)` only,
skipping the diagonal-corner cell `(1,1)` the true segment crosses, so the
advertised no-false-negative guarantee fails. -/
theorem C1_theorem :
    get_obstacles_near_line (buildIndex [obsC1] 5000000) p1C1 p2C1 = [] ∧
    _get_line_cells (buildIndex [obsC1] 5000000) p1C1 p2C1 = [(0, 0), (0, 1), (1, 2)] ∧
    pointOnSegment p1C1 p2C1 (3 / 4) ⟨5025000, 7500000⟩ ∧
    polygonContains (obsC1.polygon.headD []) ⟨5025000, 7500000⟩ = true ∧
    obsC1.bbox.left.fdiv 5000000 = 1 ∧ obsC1.bbox.right.fdiv 5000000 = 1 ∧
    obsC1.bbox.top.fdiv 5000000 = 1 ∧ obsC1.bbox.bottom.fdiv 5000000 = 1 := by
  refine ⟨by with_unfolding_all decide, by with_unfolding_all decide,
    ⟨by norm_num, by norm_num, by norm_num [p1C1, p2C1], by norm_num [p1C1, p2C1]⟩,
    by with_unfolding_all decide, by decide, by decide, by decide, by decide⟩

/-! ### Claim C9: the visibility graph -/

/-- ClearanceCreepageChecker._line_intersects_bbox: Cohen–Sutherland-style
overlap test between the segment's bounding box and the obstacle's. -/
def _line_intersects_bbox (p1 p2 : Vec2) (bbox : BBox) : Bool :=
  let line_min_x := min p1.x p2.x
  let line_max_x := max p1.x p2.x
  let line_min_y := min p1.y p2.y
  let line_max_y := max p1.y p2.y
  ¬(line_max_x < bbox.left ∨ line_min_x > bbox.right ∨
    line_max_y < bbox.top ∨ line_min_y > bbox.bottom)

/-- ClearanceCreepageChecker._line_intersects_polygon, parameterised by the
external pcbnew `SHAPE_POLY_SET.Contains` test: bounding-box fast
rejection, endpoint containment, then segment/edge crossings. -/
def _line_intersects_polygon (Contains : PolySet → Vec2 → Bool)
    (p1 p2 : Vec2) (polygon : PolySet) (bbox : Option BBox) : Bool :=
  let core :=
    Contains polygon p1 || Contains polygon p2 ||
      polygon.any fun outline =>
        (List.range outline.length).any fun i =>
          _segments_intersect p1 p2 (outline.getD i default)
            (outline.getD ((i + 1) % outline.length) default)
  match bbox with
  | some bb => if ¬_line_intersects_bbox p1 p2 bb then false else core
  | none => core

/-- ClearanceCreepageChecker._path_crosses_obstacle. -/
def _path_crosses_obstacle (Contains : PolySet → Vec2 → Bool)
    (point_a point_b : Vec2) (obstacles : List Obstacle) : Bool :=
  if obstacles.length = 0 then false
  else obstacles.any fun o =>
    _line_intersects_polygon Contains point_a point_b o.polygon (some o.bbox)

/-- ClearanceCreepageChecker._path_crosses_obstacle_fast (the pre-filtered
variant without the emptiness shortcut). -/
def _path_crosses_obstacle_fast (Contains : PolySet → Vec2 → Bool)
    (point_a point_b : Vec2) (obstacles : List Obstacle) : Bool :=
  obstacles.any fun o =>
    _line_intersects_polygon Contains point_a point_b o.polygon (some o.bbox)

/-- Python slice `l[::k]`: every `k`-th element. -/
def everyNth (l : List α) (k : ℕ) : List α :=
  (l.enum.filter (fun p => p.1 % k = 0)).map Prod.snd

/-- Append a weighted edge to a vertex's adjacency list. -/
def graphAdd (g : List (ℕ × List (ℕ × ℚ))) (k : ℕ) (v : ℕ × ℚ) :
    List (ℕ × List (ℕ × ℚ)) :=
  g.map (fun kv => if kv.1 = k then (kv.1, kv.2 ++ [v]) else kv)

/-- ClearanceCreepageChecker._build_visibility_graph, parameterised by the
external polygon-containment test and by `_get_key_vertices` (whose
interior-angle filter uses floating-point `atan2` and is abstracted as a
function; the cap behaviour below holds for every such extractor):
`[start, goal]` followed by the stride-subsampled obstacle corners capped
at 148, and the visibility adjacency over all vertex pairs. -/
def _build_visibility_graph (Contains : PolySet → Vec2 → Bool)
    (keyVertices : PolySet → List Vec2) (start goal : Vec2)
    (obstacles : List Obstacle) (spatial_index : ObstacleSpatialIndex) :
    List Vec2 × List (ℕ × List (ℕ × ℚ)) :=
  let max_total_vertices := 150
  let all_obstacle_vertices := obstacles.flatMap (fun o => keyVertices o.polygon)
  let all_obstacle_vertices :=
    if all_obstacle_vertices.length > max_total_vertices - 2 then
      everyNth all_obstacle_vertices
        (max 1 (all_obstacle_vertices.length / (max_total_vertices - 2)))
    else all_obstacle_vertices
  let vertices := [start, goal] ++ all_obstacle_vertices.take (max_total_vertices - 2)
  let pairs := (List.range vertices.length).flatMap fun i =>
    (List.range vertices.length).filterMap fun j =>
      if i < j then some (i, j) else none
  let graph := pairs.foldl (fun g ij =>
      let v_i := vertices.getD ij.1 default
      let v_j := vertices.getD ij.2 default
      let nearby := get_obstacles_near_line spatial_index v_i v_j
      if ¬_path_crosses_obstacle_fast Contains v_i v_j nearby then
        let dist := get_distance v_i v_j
        graphAdd (graphAdd g ij.1 (ij.2, dist)) ij.2 (ij.1, dist)
      else g)
    ((List.range vertices.length).map (fun i => (i, ([] : List (ℕ × ℚ)))))
  (vertices, graph)

/-- C9, confirmed: for every input — and every corner extractor — the
vertex list starts with the start point at index 0 and the goal at index 1,
never exceeds 150 vertices, and its corner section is a subsequence of the
extracted obstacle corner candidates (stride subsampling then truncation). -/
theorem C9_theorem (Contains : PolySet → Vec2 → Bool)
    (keyVertices : PolySet → List Vec2) (start goal : Vec2)
    (obstacles : List Obstacle) (spatial_index : ObstacleSpatialIndex) :
    (_build_visibility_graph Contains keyVertices start goal obstacles spatial_index).1.take 2 =
      [start, goal] ∧
    (_build_visibility_graph Contains keyVertices start goal obstacles spatial_index).1.length ≤
      150 ∧
    List.Sublist
      ((_build_visibility_graph Contains keyVertices start goal obstacles spatial_index).1.drop 2)
      (obstacles.flatMap (fun o => keyVertices o.polygon)) := by
  have hvert : (_build_visibility_graph Contains keyVertices start goal obstacles
      spatial_index).1 =
      [start, goal] ++
        (if (obstacles.flatMap (fun o => keyVertices o.polygon)).length > 150 - 2 then
          everyNth (obstacles.flatMap (fun o => keyVertices o.polygon))
            (max 1 ((obstacles.flatMap (fun o => keyVertices o.polygon)).length / (150 - 2)))
        else obstacles.flatMap (fun o => keyVertices o.polygon)).take (150 - 2) := rfl
  refine ⟨?_, ?_, ?_⟩
  · rw [hvert]
    rfl
  · rw [hvert, List.length_append, List.length_take]
    have h2 : ([start, goal] : List Vec2).length = 2 := rfl
    rw [h2]
    omega
  · rw [hvert]
    have hdrop : ([start, goal] ++
        (if (obstacles.flatMap (fun o => keyVertices o.polygon)).length > 150 - 2 then
          everyNth (obstacles.flatMap (fun o => keyVertices o.polygon))
            (max 1 ((obstacles.flatMap (fun o => keyVertices o.polygon)).length / (150 - 2)))
        else obstacles.flatMap (fun o => keyVertices o.polygon)).take (150 - 2)).drop 2 =
        (if (obstacles.flatMap (fun o => keyVertices o.polygon)).length > 150 - 2 then
          everyNth (obstacles.flatMap (fun o => keyVertices o.polygon))
            (max 1 ((obstacles.flatMap (fun o => keyVertices o.polygon)).length / (150 - 2)))
        else obstacles.flatMap (fun o => keyVertices o.polygon)).take (150 - 2) := rfl
    rw [hdrop]
    refine List.Sublist.trans (List.take_sublist _ _) ?_
    split_ifs with h
    · have hsub := (List.filter_sublist
        (l := (obstacles.flatMap (fun o => keyVertices o.polygon)).enum)
        (p := fun p => p.1 % (max 1 ((obstacles.flatMap
          (fun o => keyVertices o.polygon)).length / (150 - 2))) = 0)).map Prod.snd
      rw [List.enum_map_snd] at hsub
      exact hsub
    · exact List.Sublist.refl _

/-! ### Claim C8: the bounded fallback A* -/

/-- The `{'length': ..., 'nodes': ...}` dict the pathfinders return. -/
structure PathResult where
  length : ℚ
  nodes : List Vec2
deriving DecidableEq, Repr

/-- ClearanceCreepageChecker._node_key. -/
def _node_key (node : Vec2) : ℤ × ℤ := (node.x, node.y)

/-- ClearanceCreepageChecker._heuristic: Euclidean distance to the goal. -/
def _heuristic (node goal : Vec2) : ℚ := get_distance node goal

/-- Lexicographic order on heap entries (f-score, then insertion counter);
the counter is unique, so heap entries are never compared by node, matching
Python tuple comparison on `(f_score, counter, node)`. -/
def heapLtB (a b : ℚ × ℕ × Vec2) : Bool := a.1 < b.1 || (a.1 == b.1 && a.2.1 < b.2.1)

/-- `heapq.heappop`: extract the lexicographically least entry. -/
def popMin (l : List (ℚ × ℕ × Vec2)) :
    Option ((ℚ × ℕ × Vec2) × List (ℚ × ℕ × Vec2)) :=
  match l with
  | [] => none
  | x :: xs =>
    let m := xs.foldl (fun a b => if heapLtB b a then b else a) x
    some (m, l.erase m)

/-- Dictionary lookup on an association list with prepend-overwrite
updates. -/
def assocGet (l : List ((ℤ × ℤ) × α)) (k : ℤ × ℤ) : Option α :=
  (l.find? (fun kv => kv.1 == k)).map Prod.snd

/-- The `while current_key in came_from` walk of
ClearanceCreepageChecker._reconstruct_path, fuelled by the map size (the
source would loop forever on a cyclic `came_from`; the fuel returns the
partial path there). -/
def reconstructLoop : ℕ → List ((ℤ × ℤ) × Vec2) → Vec2 → List Vec2 → List Vec2
  | 0, _, _, path => path
  | fuel + 1, came_from, current, path =>
    match assocGet came_from (_node_key current) with
    | some prev => reconstructLoop fuel came_from prev (path ++ [prev])
    | none => path

/-- ClearanceCreepageChecker._reconstruct_path (the unused `start`
parameter of the source is kept). -/
def _reconstruct_path (came_from : List ((ℤ × ℤ) × Vec2)) (current start : Vec2) :
    List Vec2 :=
  (reconstructLoop (came_from.length + 1) came_from current [current]).reverse

/-- ClearanceCreepageChecker._calculate_path_length. -/
def _calculate_path_length (path : List Vec2) : ℚ :=
  toMM ((List.range (path.length - 1)).foldl
    (fun acc i => acc + get_distance (path.getD i default) (path.getD (i + 1) default)) 0)

/-- Python `range(0, n, step)` for `step ≥ 1`. -/
def rangeStep (n step : ℕ) : List ℕ := (List.range n).filter (fun i => i % step = 0)

/-- One insertion step of a stable sort by a rational key. -/
def insertByKey (key : α → ℚ) (x : α) : List α → List α
  | [] => [x]
  | y :: rest => if key x < key y then x :: y :: rest else y :: insertByKey key x rest

/-- Insertion sort by a rational key (models Python `list.sort(key=...)`;
agrees with the stable sort on key-distinct lists). -/
def sortByKey (key : α → ℚ) : List α → List α
  | [] => []
  | x :: rest => insertByKey key x (sortByKey key rest)

/-- The candidate loop of `_get_fast_neighbors`: append each candidate
vertex reachable without crossing copper, stopping at `2 × max_neighbors`. -/
def innerSample (Contains : PolySet → Vec2 → Bool) (sidx : ObstacleSpatialIndex)
    (current : Vec2) (max_neighbors : ℕ) : List Vec2 → List Vec2 → List Vec2
  | [], acc => acc
  | v :: vs, acc =>
    let test_obstacles := get_obstacles_near_line sidx current v
    if ¬_path_crosses_obstacle_fast Contains current v test_obstacles then
      let acc := acc ++ [v]
      if acc.length ≥ max_neighbors * 2 then acc
      else innerSample Contains sidx current max_neighbors vs acc
    else innerSample Contains sidx current max_neighbors vs acc

/-- The per-obstacle sampling loop of `_get_fast_neighbors`: sample about
four outline vertices, keep the two closest to the goal, and collect the
reachable ones; the outer loop stops at `2 × max_neighbors` neighbors. -/
def obstacleLoop (Contains : PolySet → Vec2 → Bool) (sidx : ObstacleSpatialIndex)
    (current goal : Vec2) (max_neighbors : ℕ) : List Obstacle → List Vec2 → List Vec2
  | [], acc => acc
  | o :: rest, acc =>
    let acc' :=
      match o.polygon.head? with
      | none => acc
      | some outline =>
        if outline.length = 0 then acc
        else
          let candidates := (rangeStep outline.length (max 1 (outline.length / 4))).map
            (fun i =>
              let vertex := outline.getD i default
              (get_distance vertex goal, vertex))
          let candidates := sortByKey Prod.fst candidates
          innerSample Contains sidx current max_neighbors
            ((candidates.take 2).map Prod.snd) acc
    if acc'.length ≥ max_neighbors * 2 then acc'
    else obstacleLoop Contains sidx current goal max_neighbors rest acc'

/-- ClearanceCreepageChecker._get_fast_neighbors: direct path to the goal
when clear, otherwise vertices sampled from the obstacles registered within
three grid cells of the current node (the source's set-of-indices becomes a
deduplicated list), sorted and truncated to `max_neighbors`. -/
def _get_fast_neighbors (Contains : PolySet → Vec2 → Bool)
    (sidx : ObstacleSpatialIndex) (obstacles : List Obstacle)
    (current goal : Vec2) (max_neighbors : ℕ) : List Vec2 :=
  let nearby_obstacles := get_obstacles_near_line sidx current goal
  if ¬_path_crosses_obstacle_fast Contains current goal nearby_obstacles then [goal]
  else
    let ccx := current.x.fdiv sidx.cell_size
    let ccy := current.y.fdiv sidx.cell_size
    let idxs := ((intRange (-3) 3).flatMap (fun dx =>
      (intRange (-3) 3).flatMap (fun dy => gridGet sidx.grid (ccx + dx, ccy + dy)))).dedup
    let nearby_obstacles_list := (idxs.take 50).map (fun i => obstacles.getD i default)
    let neighbors := obstacleLoop Contains sidx current goal max_neighbors
      nearby_obstacles_list []
    if neighbors.length > max_neighbors then
      (sortByKey (fun n => get_distance current n + get_distance n goal) neighbors).take
        max_neighbors
    else neighbors

/-- The neighbor-relaxation body of the fast A* loop: skip closed nodes,
update `came_from`/`g_score` and push onto the open set when the tentative
cost improves. -/
def astarRelax (goal current : Vec2) (current_key : ℤ × ℤ)
    (closed_set : List (ℤ × ℤ))
    (st : List (ℚ × ℕ × Vec2) × List ((ℤ × ℤ) × Vec2) × List ((ℤ × ℤ) × ℚ) × ℕ)
    (nb : Vec2) :
    List (ℚ × ℕ × Vec2) × List ((ℤ × ℤ) × Vec2) × List ((ℤ × ℤ) × ℚ) × ℕ :=
  let (open_set, came_from, g_score, counter) := st
  let neighbor_key := _node_key nb
  if closed_set.contains neighbor_key then st
  else
    let tentative_g := (assocGet g_score current_key).getD 0 + get_distance current nb
    let improves :=
      match assocGet g_score neighbor_key with
      | none => true
      | some old => tentative_g < old
    if improves then
      let f_score := tentative_g + _heuristic nb goal
      ((f_score, counter, nb) :: open_set, (neighbor_key, current) :: came_from,
        (neighbor_key, tentative_g) :: g_score, counter + 1)
    else st

/-- The `while open_set and iterations < max_iterations` loop of
`_astar_surface_path_fast`, as structural recursion on the remaining
iteration budget (the loop guard); returns the result, the number of loop
iterations executed, and whether the loop ended by exhaustion (budget spent
or open set empty) rather than by reaching the goal. -/
def astarLoop (Contains : PolySet → Vec2 → Bool) (sidx : ObstacleSpatialIndex)
    (obstacles : List Obstacle) (start goal : Vec2) (max_neighbors : ℕ) :
    ℕ → List (ℚ × ℕ × Vec2) → List (ℤ × ℤ) → List ((ℤ × ℤ) × Vec2) →
    List ((ℤ × ℤ) × ℚ) → ℕ → ℕ → Option PathResult × ℕ × Bool
  | 0, _, _, _, _, _, iterations => (none, iterations, true)
  | fuel + 1, open_set, closed_set, came_from, g_score, counter, iterations =>
    match popMin open_set with
    | none => (none, iterations, true)
    | some (entry, rest) =>
      let iterations := iterations + 1
      let current := entry.2.2
      let current_key := _node_key current
      if get_distance current goal < fromMM (1 / 10) then
        let path := _reconstruct_path came_from current start
        (some ⟨_calculate_path_length path, path⟩, iterations, false)
      else if closed_set.contains current_key then
        astarLoop Contains sidx obstacles start goal max_neighbors fuel rest closed_set
          came_from g_score counter iterations
      else
        let closed_set := current_key :: closed_set
        let neighbors := _get_fast_neighbors Contains sidx obstacles current goal
          max_neighbors
        let st := neighbors.foldl (astarRelax goal current current_key closed_set)
          (rest, came_from, g_score, counter)
        astarLoop Contains sidx obstacles start goal max_neighbors fuel st.1 closed_set
          st.2.1 st.2.2.1 st.2.2.2 iterations

/-- ClearanceCreepageChecker._astar_surface_path_fast: the direct-path
shortcut, then the capped best-first search (`max_iterations = 100`,
`max_neighbors = 8`, 10 mm spatial grid).  The result is paired with the
number of loop iterations executed and the exhaustion flag. -/
def _astar_surface_path_fast (Contains : PolySet → Vec2 → Bool)
    (start_pad goal_pad : Pad) (obstacles : List Obstacle) (layer : Layer) :
    Option PathResult × ℕ × Bool :=
  let start := start_pad.pos
  let goal := goal_pad.pos
  if ¬_path_crosses_obstacle Contains start goal obstacles then
    (some ⟨toMM (get_distance start goal), [start, goal]⟩, 0, false)
  else
    let max_iterations := 100
    let max_neighbors := 8
    let spatial_index := buildIndex obstacles 10000000
    astarLoop Contains spatial_index obstacles start goal max_neighbors
      max_iterations [(_heuristic start goal, 0, start)] [] [] [(_node_key start, 0)] 1 0

/-- The loop executes at most its remaining budget of iterations, and an
exhausted run (budget spent or open set empty without reaching the goal)
returns `none`. -/
theorem astarLoop_spec (Contains : PolySet → Vec2 → Bool)
    (sidx : ObstacleSpatialIndex) (obstacles : List Obstacle) (start goal : Vec2)
    (max_neighbors : ℕ) :
    ∀ (fuel : ℕ) (open_set : List (ℚ × ℕ × Vec2)) (closed_set : List (ℤ × ℤ))
      (came_from : List ((ℤ × ℤ) × Vec2)) (g_score : List ((ℤ × ℤ) × ℚ))
      (counter iterations : ℕ),
    (astarLoop Contains sidx obstacles start goal max_neighbors fuel open_set closed_set
        came_from g_score counter iterations).2.1 ≤ iterations + fuel ∧
    ((astarLoop Contains sidx obstacles start goal max_neighbors fuel open_set closed_set
        came_from g_score counter iterations).2.2 = true →
      (astarLoop Contains sidx obstacles start goal max_neighbors fuel open_set closed_set
        came_from g_score counter iterations).1 = none) := by
  intro fuel
  induction fuel with
  | zero =>
    intro open_set closed_set came_from g_score counter iterations
    exact ⟨Nat.le_refl _, fun _ => rfl⟩
  | succ fuel ih =>
    intro open_set closed_set came_from g_score counter iterations
    simp only [astarLoop]
    cases hpop : popMin open_set with
    | none => exact ⟨by dsimp only; omega, by dsimp only; simp⟩
    | some pr =>
      obtain ⟨entry, rest⟩ := pr
      dsimp only
      split_ifs with hgoal hclosed
      · exact ⟨by dsimp only; omega, by simp⟩
      · have h := ih rest closed_set came_from g_score counter (iterations + 1)
        exact ⟨le_trans h.1 (by omega), h.2⟩
      · exact ⟨le_trans (ih _ _ _ _ _ (iterations + 1)).1 (by omega),
          (ih _ _ _ _ _ (iterations + 1)).2⟩

/-- C8, confirmed: for every input, `_astar_surface_path_fast` executes at
most 100 loop iterations (its hard cap), terminates, and when the loop ends
by exhausting the budget or emptying the open set without reaching the
goal, it returns `none`. -/
theorem C8_theorem (Contains : PolySet → Vec2 → Bool) (start_pad goal_pad : Pad)
    (obstacles : List Obstacle) (layer : Layer) :
    (_astar_surface_path_fast Contains start_pad goal_pad obstacles layer).2.1 ≤ 100 ∧
    ((_astar_surface_path_fast Contains start_pad goal_pad obstacles layer).2.2 = true →
      (_astar_surface_path_fast Contains start_pad goal_pad obstacles layer).1 = none) := by
  simp only [_astar_surface_path_fast]
  split_ifs with hdirect
  · have h := astarLoop_spec Contains (buildIndex obstacles 10000000) obstacles
      start_pad.pos goal_pad.pos 8 100
      [(_heuristic start_pad.pos goal_pad.pos, 0, start_pad.pos)] [] []
      [(_node_key start_pad.pos, 0)] 1 0
    exact ⟨by simpa using h.1, h.2⟩
  · exact ⟨by norm_num, by simp⟩

/-! ### C6: creepage skipped above the obstacle cap (`_calculate_creepage`
and the creepage-result handling in `check`) -/

/-- The `self.creepage_stats` entries the creepage pass mutates: per-layer
skip records `(domain_a, domain_b, layer_name, obstacle_count)`, layers
with no surface path, and successfully calculated layers (with the actual
and required creepage). -/
structure CreepageStats where
  layers_skipped_obstacles : List (String × String × String × ℕ)
  layers_no_path : List (String × String × String)
  layers_calculated : List (String × String × String × WithTop ℚ × ℚ)
deriving DecidableEq

/-- The pad pairs `_calculate_creepage` examines: at most 5 pads from each
domain, every cross pair keyed by center distance, sorted ascending, then
truncated to `min 3 (len pads_a * len pads_b)`. -/
def creepagePairs (pads_a pads_b : List Pad) : List (ℚ × Pad × Pad) :=
  let raw := (pads_a.take 5).flatMap (fun pa =>
    (pads_b.take 5).map (fun pb => (get_distance pa.pos pb.pos, pa, pb)))
  (sortByKey (fun t => t.1) raw).take (min 3 (pads_a.length * pads_b.length))

/-- One iteration of the pad-pair loop of `_calculate_creepage`: run the
injected `_astar_surface_path` collaborator with `max_iterations = 200` and
keep the shortest path found so far; the last component counts pathfinder
invocations. -/
def creepageStep (astar : Pad → Pad → List Obstacle → Layer → ℕ → Option PathResult)
    (obstacles : List Obstacle) (layer : Layer)
    (st : WithTop ℚ × Option (List Vec2) × Option Pad × Option Pad × ℕ)
    (pr : ℚ × Pad × Pad) :
    WithTop ℚ × Option (List Vec2) × Option Pad × Option Pad × ℕ :=
  let (min_creepage, best_path, best_start_pad, best_end_pad, calls) := st
  match astar pr.2.1 pr.2.2 obstacles layer 200 with
  | none => (min_creepage, best_path, best_start_pad, best_end_pad, calls + 1)
  | some path =>
    if (path.length : WithTop ℚ) < min_creepage then
      ((path.length : WithTop ℚ), some path.nodes, some pr.2.1, some pr.2.2, calls + 1)
    else (min_creepage, best_path, best_start_pad, best_end_pad, calls + 1)

/-- The externally visible effect of one `_calculate_creepage` call: the
returned tuple (`none` models Python `return None`), the updated
`creepage_stats`, and how many times the pathfinder ran. -/
structure CreepageOut where
  result : Option (WithTop ℚ × Option (List Vec2) × Option Pad × Option Pad)
  stats : CreepageStats
  astar_calls : ℕ
deriving DecidableEq

/-- ClearanceCreepageChecker._calculate_creepage with its two collaborators
injected: `bom` for `_build_obstacle_map_for_layer` and `astar` for
`_astar_surface_path`.  Above the `max_obstacles` cap it appends the skip
tuple to `layers_skipped_obstacles` and returns `None` before any
pathfinding; otherwise it folds the pathfinder over the closest pad pairs
starting from an infinite minimum. -/
def _calculate_creepage
    (bom : String → String → Layer → List Obstacle)
    (astar : Pad → Pad → List Obstacle → Layer → ℕ → Option PathResult)
    (max_obstacles : ℕ) (domain_a domain_b : String)
    (pads_a pads_b : List Pad) (layer : Layer) (stats : CreepageStats) :
    CreepageOut :=
  let obstacles := bom domain_a domain_b layer
  let layer_name := layer.name
  if obstacles.length > max_obstacles then
    ⟨none,
      { stats with layers_skipped_obstacles :=
          stats.layers_skipped_obstacles ++
            [(domain_a, domain_b, layer_name, obstacles.length)] }, 0⟩
  else
    let fin := (creepagePairs pads_a pads_b).foldl
      (creepageStep astar obstacles layer) (⊤, none, none, none, 0)
    ⟨some (fin.1, fin.2.1, fin.2.2.1, fin.2.2.2.1), stats, fin.2.2.2.2⟩

/-- The creepage-result handling in `check` (the `if creepage_result:`
block): `None` records nothing, an infinite distance appends the layer to
`layers_no_path`, and a finite distance appends it to `layers_calculated`
together with the required creepage looked up for the pair. -/
def recordCreepageOutcome (domain_a domain_b layer_name : String)
    (required_creepage : ℚ)
    (creepage_result : Option (WithTop ℚ × Option (List Vec2) × Option Pad × Option Pad))
    (stats : CreepageStats) : CreepageStats :=
  match creepage_result with
  | none => stats
  | some r =>
    if r.1 = ⊤ then
      { stats with layers_no_path :=
          stats.layers_no_path ++ [(domain_a, domain_b, layer_name)] }
    else
      { stats with layers_calculated :=
          stats.layers_calculated ++
            [(domain_a, domain_b, layer_name, r.1, required_creepage)] }

/-- C6, confirmed: when the obstacle map for a layer exceeds
`max_obstacles`, `_calculate_creepage` returns `None` without invoking the
pathfinder at all and appends `(domain_a, domain_b, layer_name, count)` to
`layers_skipped_obstacles`; fed through the `check`-side result handler the
skip records nothing further, unlike the no-path outcome
`(inf, None, None, None)`, which appends the layer to `layers_no_path`. -/
theorem C6_theorem
    (bom : String → String → Layer → List Obstacle)
    (astar : Pad → Pad → List Obstacle → Layer → ℕ → Option PathResult)
    (max_obstacles : ℕ) (domain_a domain_b : String)
    (pads_a pads_b : List Pad) (layer : Layer) (stats : CreepageStats)
    (required : ℚ)
    (h : (bom domain_a domain_b layer).length > max_obstacles) :
    (_calculate_creepage bom astar max_obstacles domain_a domain_b pads_a pads_b
        layer stats).result = none ∧
    (_calculate_creepage bom astar max_obstacles domain_a domain_b pads_a pads_b
        layer stats).astar_calls = 0 ∧
    (_calculate_creepage bom astar max_obstacles domain_a domain_b pads_a pads_b
        layer stats).stats.layers_skipped_obstacles =
      stats.layers_skipped_obstacles ++
        [(domain_a, domain_b, layer.name, (bom domain_a domain_b layer).length)] ∧
    recordCreepageOutcome domain_a domain_b layer.name required
      (_calculate_creepage bom astar max_obstacles domain_a domain_b pads_a pads_b
        layer stats).result
      (_calculate_creepage bom astar max_obstacles domain_a domain_b pads_a pads_b
        layer stats).stats =
      (_calculate_creepage bom astar max_obstacles domain_a domain_b pads_a pads_b
        layer stats).stats ∧
    (recordCreepageOutcome domain_a domain_b layer.name required
        (some (⊤, none, none, none)) stats).layers_no_path =
      stats.layers_no_path ++ [(domain_a, domain_b, layer.name)] := by
  have hres : _calculate_creepage bom astar max_obstacles domain_a domain_b
      pads_a pads_b layer stats =
      ⟨none,
        { stats with layers_skipped_obstacles :=
            stats.layers_skipped_obstacles ++
              [(domain_a, domain_b, layer.name,
                (bom domain_a domain_b layer).length)] }, 0⟩ := by
    simp only [_calculate_creepage]
    rw [if_pos h]
  rw [hres]
  refine ⟨rfl, rfl, rfl, rfl, ?_⟩
  simp [recordCreepageOutcome]

/-- The obstacle-map collaborator for the C6 witness: one obstacle on every
layer. -/
def bomC6 : String → String → Layer → List Obstacle := fun _ _ _ => [obsC1]

/-- The pathfinder collaborator for the C6 witness: never finds a path. -/
def astarC6 : Pad → Pad → List Obstacle → Layer → ℕ → Option PathResult :=
  fun _ _ _ _ _ => none

/-- Empty creepage statistics for the C6 witness. -/
def statsC6 : CreepageStats := ⟨[], [], []⟩

/-- The layer of the C6 witness. -/
def layerC6 : Layer := ⟨0, "F.Cu"⟩

/-- Witness for C6 at a concrete input: one obstacle against a cap of 0. -/
theorem C6_witness :
    ((bomC6 "HV" "LV" layerC6).length > 0) ∧
    ((_calculate_creepage bomC6 astarC6 0 "HV" "LV" [] [] layerC6
        statsC6).result = none ∧
     (_calculate_creepage bomC6 astarC6 0 "HV" "LV" [] [] layerC6
        statsC6).astar_calls = 0 ∧
     (_calculate_creepage bomC6 astarC6 0 "HV" "LV" [] [] layerC6
        statsC6).stats.layers_skipped_obstacles =
       statsC6.layers_skipped_obstacles ++
         [("HV", "LV", layerC6.name, (bomC6 "HV" "LV" layerC6).length)] ∧
     recordCreepageOutcome "HV" "LV" layerC6.name 1
       (_calculate_creepage bomC6 astarC6 0 "HV" "LV" [] [] layerC6
         statsC6).result
       (_calculate_creepage bomC6 astarC6 0 "HV" "LV" [] [] layerC6
         statsC6).stats =
       (_calculate_creepage bomC6 astarC6 0 "HV" "LV" [] [] layerC6
         statsC6).stats ∧
     (recordCreepageOutcome "HV" "LV" layerC6.name 1
         (some (⊤, none, none, none)) statsC6).layers_no_path =
       statsC6.layers_no_path ++ [("HV", "LV", layerC6.name)]) :=
  ⟨by decide,
   C6_theorem bomC6 astarC6 0 "HV" "LV" [] [] layerC6 statsC6 1 (by decide)⟩
